import Mathlib

/-!
Verification of the TTS save split/merge tool.

This file gives a shallow embedding, in Lean, of the algorithmic core of
`src/bin/merge-tts-save-pro.js` and `src/bin/split-tts-save-pro.js`:

* the textual `require`-reference scanner (`findRequireIds`, modelling the
  JavaScript regular expression `REQUIRE_RE` and its `exec` loop);
* the luabundle-style bundler (`bundleLuaIfNeeded`, with the depth-first
  module walk `loadMany` modelling `loadModule` together with its
  enclosing loops, made total with an explicit fuel argument);
* the stable sibling sort (`sortByOrderStable`);
* the manifest tree reconstructor (`loadObjectFromManifest`, `mergeMain`)
  and the splitter (`saveObjectToFile` / `splitList`);
* the validator (`validateModStructure`) and the sanitizer
  (`sanitizeFileNameStrict`).

File-system reads are modelled by explicit association lists from paths to
contents; `process.exit(1)` failures are modelled by error-carrying result
types.  JavaScript numbers used as sibling `order` values are modelled by
`Option Int` (absent / non-numeric values behave as `+Infinity` in the
comparator, exactly as in the source).  Unicode-dependent primitives that
Lean cannot compute (`String.normalize('NFC')`, the `\p{L}\p{N}` character
classes) are taken as parameters of the functions that use them, so every
theorem below holds for any interpretation of those primitives.
-/

namespace TTS

/-- JavaScript's `\s` character class (as used by `RegExp` without flags):
space, tab, line feed, vertical tab, form feed, carriage return, and the
Unicode space separators / BOM. -/
def isJsSpace (c : Char) : Bool :=
  c == ' ' || c == '\t' || c == '\n' || (c.toNat == 11) || (c.toNat == 12) ||
  c == '\r' || (c.toNat == 0xa0) || (c.toNat == 0x1680) ||
  (0x2000 ≤ c.toNat && c.toNat ≤ 0x200a) ||
  (c.toNat == 0x2028) || (c.toNat == 0x2029) || (c.toNat == 0x202f) ||
  (c.toNat == 0x205f) || (c.toNat == 0x3000) || (c.toNat == 0xfeff)

/-- A single or double quote, i.e. the regex class `["\x27]`. -/
def isQuote (c : Char) : Bool := c == '"' || c == '\''

/-- Consume an exact literal prefix (used for the literal `require` in
`REQUIRE_RE`); returns the remaining characters on success. -/
def dropLiteral : List Char → List Char → Option (List Char)
  | [], cs => some cs
  | l :: ls, c :: cs => if c == l then dropLiteral ls cs else none
  | _ :: _, [] => none

/-- Model of the regex fragment `["\x27]([^"\x27]+)["\x27]`: an opening
quote, one or more non-quote characters (captured), and a closing quote
(which, as in the regex, need not match the opening one). -/
def parseQuoted : List Char → Option (String × List Char)
  | [] => none
  | c :: rest =>
    if isQuote c then
      match rest.takeWhile (fun d => !(isQuote d)), rest.dropWhile (fun d => !(isQuote d)) with
      | [], _ => none
      | idChars, _q :: rest2 => some (String.mk idChars, rest2)
      | _, [] => none
    else none

/-- Model of the part of `REQUIRE_RE` after the literal `require`:
`\s*(?:\(\s*["\x27]([^"\x27]+)["\x27]\s*\)|\s+["\x27]([^"\x27]+)["\x27])`.
Either a parenthesised call (optionally space-padded), or at least one
whitespace character followed by a bare quoted literal. -/
def matchAfterRequire (cs : List Char) : Option (String × List Char) :=
  let ws := cs.takeWhile isJsSpace
  let rest := cs.dropWhile isJsSpace
  match rest with
  | '(' :: r1 =>
    match parseQuoted (r1.dropWhile isJsSpace) with
    | some (id, r2) =>
      match r2.dropWhile isJsSpace with
      | ')' :: r3 => some (id, r3)
      | _ => none
    | none => none
  | _ => if ws.isEmpty then none else parseQuoted rest

/-- Attempt to match `require` plus its argument at the current position
(after the `(^|\s)` anchor has been consumed). -/
def matchRequireAt (cs : List Char) : Option (String × List Char) :=
  match dropLiteral "require".toList cs with
  | some rest => matchAfterRequire rest
  | none => none

/-- `Set.add` as used on the collected ids: append if not already present
(JavaScript `Set` preserves first-insertion order). -/
def addId (acc : List String) (id : String) : List String :=
  if id ∈ acc then acc else acc ++ [id]

/-- The `REQUIRE_RE.exec` loop: scan left to right; at position 0 the `^`
alternative of the anchor `(^|\s)` applies, at every position a whitespace
character can serve as the anchor.  After a successful match scanning
resumes at the match's end (the regex `lastIndex`).  The fuel argument is
always called with `length + 1`, and every step consumes at least one
character, so the fuel never runs out. -/
def scanRequires : Nat → Bool → List Char → List String → List String
  | 0, _, _, acc => acc
  | _ + 1, _, [], acc => acc
  | fuel + 1, atStart, c :: rest, acc =>
    match (if atStart then matchRequireAt (c :: rest) else none) with
    | some (id, rem) => scanRequires fuel false rem (addId acc id)
    | none =>
      if isJsSpace c then
        match matchRequireAt rest with
        | some (id, rem) => scanRequires fuel false rem (addId acc id)
        | none => scanRequires fuel false rest acc
      else scanRequires fuel false rest acc

/-- `findRequireIds`: all distinct module ids referenced by
`require("id")` / `require \x27id\x27` patterns in the code, in first-seen
order. -/
def findRequireIds (luaCode : String) : List String :=
  scanRequires (luaCode.toList.length + 1) true luaCode.toList []

example : findRequireIds "print(1)" = [] := by decide
example : findRequireIds "require(\"util/math\")" = ["util/math"] := by decide
example : findRequireIds "local m = require \x27util/math\x27" = ["util/math"] := by decide
example : findRequireIds "-- require(\"util/math\")" = ["util/math"] := by decide
example : findRequireIds "require(\"a\") require(\"b\") require(\"a\")" = ["a", "b"] := by decide

/-! ## The luabundle-style bundler -/

/-- The Lua module library (`LIB_DIR`).  `libExists` models
`fs.existsSync(LIB_DIR)`; `files` maps file paths (relative to `LIB_DIR`)
to their text content. -/
structure LuaLib where
  libExists : Bool
  files : List (String × String)
deriving DecidableEq, Repr

/-- First file in the store with the given path (a read of an existing
file). -/
def lookupFile (files : List (String × String)) (p : String) : Option String :=
  match files.find? (fun f => f.1 == p) with
  | some f => some f.2
  | none => none

/-- `id.split(\x27/\x27)`: split a character list at every slash (keeping
empty pieces, as JavaScript `split` does). -/
def splitSlash : List Char → List Char → List String
  | [], cur => [String.mk cur.reverse]
  | c :: rest, cur =>
    if c == '/' then String.mk cur.reverse :: splitSlash rest []
    else splitSlash rest (c :: cur)

/-- `Array.prototype.join(sep)` (defined before its main uses below). -/
def joinSep (sep : String) : List String → String
  | [] => ""
  | [x] => x
  | x :: xs => x ++ sep ++ joinSep sep xs

/-- `id.split(\x27/\x27).filter(Boolean)` re-joined by the path separator
(`path.join`): the relative path under `LIB_DIR` that a logical id
denotes. -/
def normalizeId (id : String) : String :=
  joinSep "/" ((splitSlash id.toList []).filter (fun s => s ≠ ""))

/-- `resolveModulePath` fused with the subsequent `readText`: try
`<id>.lua` then `<id>.ttslua` under the library root, first match wins,
returning the file's content. -/
def resolveModulePath (lib : LuaLib) (id : String) : Option String :=
  match lookupFile lib.files (normalizeId id ++ ".lua") with
  | some code => some code
  | none => lookupFile lib.files (normalizeId id ++ ".ttslua")

/-- The mutable state threaded through the module walk: the global
`visited` set, the emitted `modules` list (in push order), and the number
of circular-require warnings printed. -/
structure BState where
  visited : List String
  modules : List (String × String)
  warns : Nat
deriving DecidableEq, Repr

/-- Outcome of the module walk: success, a fatal missing-module error
(`process.exit(1)` naming the id), or fuel exhaustion (never reached for
the fuel bound used by `bundleLuaIfNeeded`; see `loadMany_no_outOfFuel`). -/
inductive BResult where
  | ok (st : BState)
  | fatal (id : String)
  | outOfFuel
deriving DecidableEq, Repr

/-- The recursive `loadModule` of the source, fused with its two enclosing
loops (the `for (const sub of findRequireIds(code))` loop and the
top-level `for (const id of requires)` loop) into one list-processing
function, so that the recursion is structural in the fuel argument.

`ids` are the ids still to process at this level; `parentChain` is the
`chain` array against which `chain.includes(sub)` is tested (empty for the
top-level loop, which performs no such test); `childChain` is the
`[...chain, id]` value passed down to recursive calls.  For each id: if it
is on the parent chain, print a circular-require warning and skip the
edge; if already visited, return; otherwise mark visited, resolve the
module file (fatal if missing), recursively load its requires, and only
then push `{id, code}` — emission is in post-order. -/
def loadMany (lib : LuaLib) :
    Nat → List String → List String → List String → BState → BResult
  | 0, _, _, _, _ => .outOfFuel
  | _ + 1, [], _, _, st => .ok st
  | fuel + 1, id :: rest, parentChain, childChain, st =>
    if id ∈ parentChain then
      loadMany lib fuel rest parentChain childChain { st with warns := st.warns + 1 }
    else if id ∈ st.visited then
      loadMany lib fuel rest parentChain childChain st
    else
      match resolveModulePath lib id with
      | none => .fatal id
      | some code =>
        match loadMany lib fuel (findRequireIds code) childChain
            (childChain ++ [id]) { st with visited := id :: st.visited } with
        | .ok st2 =>
          loadMany lib fuel rest parentChain childChain
            { st2 with modules := st2.modules ++ [(id, code)] }
        | r => r
termination_by structural fuel _ _ _ _ => fuel

/-- All module ids that can ever appear in a worklist: the root's requires
plus every id required by any library file.  Used only for the fuel
bound. -/
def requireUniverse (lib : LuaLib) (rootRequires : List String) : List String :=
  rootRequires ++ lib.files.flatMap (fun f => findRequireIds f.2)

/-- An upper bound on the length of any subs list produced by expanding a
module: the sum over all library files of their require counts. -/
def subsBound (lib : LuaLib) : Nat :=
  lib.files.foldr (fun f acc => (findRequireIds f.2).length + acc) 0

/-- The ids from the universe not yet visited (with multiplicity); the
decreasing quantity of the walk. -/
def unvis (u : List String) (visited : List String) : Nat :=
  (u.filter (fun a => decide (a ∉ visited))).length

/-- Fuel sufficient for the whole walk (proved in
`loadMany_no_outOfFuel`). -/
def initFuel (lib : LuaLib) (reqs : List String) : Nat :=
  reqs.length + 1 + unvis (requireUniverse lib reqs) [] * (subsBound lib + 2)

/-- The fixed luabundle `1.6.0` runtime preamble, emitted verbatim
(`emitLuabundleHeader` in the source, a single template literal). -/
def emitLuabundleHeader : String :=
  "\x2d- Bundled by luabundle \x7b\"version\":\"1.6.0\"\x7d\nlocal __bundle_require, __bundle_loaded, __bundle_register, __bundle_modules = (function(superRequire)\n\tlocal loadingPlaceholder = \x7b[\x7b\x7d] = true\x7d\n\n\tlocal register\n\tlocal modules = \x7b\x7d\n\n\tlocal require\n\tlocal loaded = \x7b\x7d\n\n\tregister = function(name, body)\n\t\tif not modules[name] then\n\t\t\tmodules[name] = body\n\t\tend\n\tend\n\n\trequire = function(name)\n\t\tlocal loadedModule = loaded[name]\n\n\t\tif loadedModule then\n\t\t\tif loadedModule == loadingPlaceholder then\n\t\t\t\treturn nil\n\t\t\tend\n\t\telse\n\t\t\tif not modules[name] then\n\t\t\t\tif not superRequire then\n\t\t\t\t\tlocal identifier = type(name) == \x27string\x27 and \x27\"\x27 .. name .. \x27\"\x27 or tostring(name)\n\t\t\t\t\terror(\x27Tried to require \x27 .. identifier .. \x27, but no such module has been registered\x27)\n\t\t\t\telse\n\t\t\t\t\treturn superRequire(name)\n\t\t\t\tend\n\t\t\tend\n\n\t\t\tloaded[name] = loadingPlaceholder\n\t\t\tloadedModule = modules[name](require, loaded, register, modules)\n\t\t\tloaded[name] = loadedModule\n\t\tend\n\n\t\treturn loadedModule\n\tend\n\n\treturn require, loaded, register, modules\nend)(nil)"

/-- The `__bundle_register` wrapper emitted for one module. -/
def renderModule (m : String × String) : String :=
  "__bundle_register(\"" ++ m.1 ++
  "\", function(require, _LOADED, __bundle_register, __bundle_modules)\n" ++
  m.2 ++ "\nend)"

/-- The final output element: the root body registered as `__root`,
followed by the entry-point invocation. -/
def renderRoot (rootCode : String) : String :=
  "__bundle_register(\"__root\", function(require, _LOADED, __bundle_register, __bundle_modules)\n" ++
  rootCode ++
  "\nend)\n\nreturn __bundle_require(\"__root\")"

/-- Result of `bundleLuaIfNeeded`: the output text, or a fatal error
(`process.exit(1)`), or the fuel marker (never reached). -/
inductive BundleOut where
  | ok (code : String)
  | fatal (msg : String)
  | outOfFuel
deriving DecidableEq, Repr

/-- `bundleLuaIfNeeded(rootCode, who)`: extract the root's requires; if
there are none, return the source unchanged; if the library directory is
missing, fail fatally (the message names `who`); otherwise run the module
walk from the root requires (with `chain = [\x27__root\x27]`) and join the
header, the module registrations in emission order, and the root
registration with blank lines. -/
def bundleLuaIfNeeded (rootCode who : String) (lib : LuaLib) : BundleOut :=
  let requires := findRequireIds rootCode
  if requires.isEmpty then .ok rootCode
  else if !lib.libExists then
    .fatal ("Lua requires detected in " ++ who ++ ", but LIB_DIR not found: ./lib")
  else
    match loadMany lib (initFuel lib requires) requires [] ["__root"]
        ⟨[], [], 0⟩ with
    | .ok st =>
      .ok (joinSep "\n\n"
        (emitLuabundleHeader :: st.modules.map renderModule ++ [renderRoot rootCode]))
    | .fatal id =>
      .fatal ("Missing Lua module \"" ++ id ++ "\" → expected: ./lib/" ++ id ++ ".lua or .ttslua")
    | .outOfFuel => .outOfFuel

/-- The cyclic two-module library of the spec's cycle scenario:
`A` requires `B` and `B` requires `A`. -/
def cycleLib : LuaLib :=
  ⟨true, [("A.lua", "require \"B\"\nreturn 1"), ("B.lua", "require \"A\"\nreturn 2")]⟩

example :
    loadMany cycleLib 20 ["A"] [] ["__root"] ⟨[], [], 0⟩ =
      .ok ⟨["B", "A"], [("B", "require \"A\"\nreturn 2"), ("A", "require \"B\"\nreturn 1")], 1⟩ := by
  decide

/-! ### Invariants of the module walk -/

/-- Specification of a successful walk: the visited set only grows, and
the emitted modules extend the previous list by modules whose ids were
unvisited on entry, are visited on exit, and are pairwise distinct. -/
theorem loadMany_ok_spec (lib : LuaLib) :
    ∀ (fuel : Nat) (ids pc cc : List String) (st st' : BState),
      loadMany lib fuel ids pc cc st = .ok st' →
      (∀ a, a ∈ st.visited → a ∈ st'.visited) ∧
      ∃ newMods, st'.modules = st.modules ++ newMods ∧
        (∀ m, m ∈ newMods → m.1 ∉ st.visited ∧ m.1 ∈ st'.visited) ∧
        (newMods.map Prod.fst).Nodup := by
  intro fuel
  induction fuel with
  | zero => intro ids pc cc st st' h; simp [loadMany] at h
  | succ fuel ih =>
    intro ids pc cc st st' h
    match ids with
    | [] =>
      simp only [loadMany, BResult.ok.injEq] at h
      subst h
      exact ⟨fun a ha => ha, [], by simp⟩
    | id :: rest =>
      rw [loadMany] at h
      by_cases hpc : id ∈ pc
      · rw [if_pos hpc] at h
        exact ih rest pc cc ⟨st.visited, st.modules, st.warns + 1⟩ st' h
      · rw [if_neg hpc] at h
        by_cases hv : id ∈ st.visited
        · rw [if_pos hv] at h
          exact ih rest pc cc st st' h
        · rw [if_neg hv] at h
          cases hres : resolveModulePath lib id with
          | none => simp [hres] at h
          | some code =>
            simp only [hres] at h
            cases hin : loadMany lib fuel (findRequireIds code) cc (cc ++ [id])
                { st with visited := id :: st.visited } with
            | fatal i => simp [hin] at h
            | outOfFuel => simp [hin] at h
            | ok st2 =>
              simp only [hin] at h
              obtain ⟨hv1, new1, hm1, hnew1, hnd1⟩ := ih _ _ _ _ _ hin
              obtain ⟨hv2, new2, hm2, hnew2, hnd2⟩ := ih _ _ _ _ _ h
              dsimp only at hv1 hm1 hnew1 hv2 hm2 hnew2
              constructor
              · intro a ha
                exact hv2 a (hv1 a (by simp [ha]))
              · refine ⟨new1 ++ [(id, code)] ++ new2, ?_, ?_, ?_⟩
                · rw [hm2, hm1]; simp
                · intro m hm
                  simp only [List.mem_append, List.mem_singleton] at hm
                  rcases hm with (h1 | h1) | h1
                  · obtain ⟨ha, hb⟩ := hnew1 m h1
                    refine ⟨fun hc => ha (by simp [hc]), hv2 _ hb⟩
                  · subst h1
                    exact ⟨hv, hv2 _ (hv1 _ (by simp))⟩
                  · obtain ⟨ha, hb⟩ := hnew2 m h1
                    exact ⟨fun hc => ha (hv1 _ (by simp [hc])), hb⟩
                · simp only [List.map_append, List.map_cons, List.map_nil]
                  rw [List.nodup_append]
                  refine ⟨?_, hnd2, ?_⟩
                  · rw [List.nodup_append]
                    refine ⟨hnd1, by simp, ?_⟩
                    intro a ha hb
                    simp only [List.mem_singleton] at hb
                    subst hb
                    simp only [List.mem_map] at ha
                    obtain ⟨m, hm, hfst⟩ := ha
                    exact (hnew1 m hm).1 (by rw [hfst]; simp)
                  · intro a ha hb
                    simp only [List.mem_map] at hb
                    obtain ⟨m, hm, hfst⟩ := hb
                    have hnot := (hnew2 m hm).1
                    rw [hfst] at hnot
                    simp only [List.mem_append, List.mem_map, List.mem_singleton] at ha
                    rcases ha with ha | ha
                    · obtain ⟨m', hm', hfst'⟩ := ha
                      exact hnot (by rw [← hfst']; exact (hnew1 m' hm').2)
                    · subst ha
                      exact hnot (hv1 a (by simp))

/-- Growing the visited set cannot increase the number of unvisited
ids. -/
theorem unvis_mono (u : List String) {v v' : List String}
    (h : ∀ a, a ∈ v → a ∈ v') : unvis u v' ≤ unvis u v := by
  unfold unvis
  apply List.Sublist.length_le
  apply List.monotone_filter_right
  intro a ha
  simp only [decide_eq_true_eq] at ha ⊢
  exact fun hc => ha (h a hc)

/-- Visiting an id from the universe strictly decreases the number of
unvisited ids. -/
theorem unvis_cons_lt (u : List String) (id : String) (v : List String)
    (hu : id ∈ u) (hv : id ∉ v) : unvis u (id :: v) < unvis u v := by
  induction u with
  | nil => cases hu
  | cons b u ih =>
    rcases List.mem_cons.mp hu with rfl | hb
    · have h1 : unvis (id :: u) (id :: v) = unvis u (id :: v) := by
        simp [unvis, List.filter_cons]
      have h2 : unvis (id :: u) v = unvis u v + 1 := by
        simp [unvis, List.filter_cons, hv]
      rw [h1, h2]
      have := @unvis_mono u v (id :: v) (fun a ha => by simp [ha])
      omega
    · by_cases hbv : b ∈ v
      · have hbv' : b ∈ id :: v := by simp [hbv]
        have h1 : unvis (b :: u) (id :: v) = unvis u (id :: v) := by
          simp [unvis, List.filter_cons, hbv', hbv]
        have h2 : unvis (b :: u) v = unvis u v := by
          simp [unvis, List.filter_cons, hbv]
        rw [h1, h2]; exact ih hb
      · by_cases hbid : b = id
        · subst hbid
          have h1 : unvis (b :: u) (b :: v) = unvis u (b :: v) := by
            simp [unvis, List.filter_cons]
          have h2 : unvis (b :: u) v = unvis u v + 1 := by
            simp [unvis, List.filter_cons, hbv]
          rw [h1, h2]
          have := @unvis_mono u v (b :: v) (fun a ha => by simp [ha])
          omega
        · have hbv' : b ∉ id :: v := by simp [hbid, hbv]
          have h1 : unvis (b :: u) (id :: v) = unvis u (id :: v) + 1 := by
            simp [unvis, List.filter_cons, hbv', hbid, hbv]
          have h2 : unvis (b :: u) v = unvis u v + 1 := by
            simp [unvis, List.filter_cons, hbv]
          rw [h1, h2]
          exact Nat.succ_lt_succ (ih hb)

/-- Any file's require count is bounded by the sum in `subsBound`. -/
theorem subs_le_foldr :
    ∀ (fs : List (String × String)) (f : String × String), f ∈ fs →
      (findRequireIds f.2).length ≤
        fs.foldr (fun g acc => (findRequireIds g.2).length + acc) 0 := by
  intro fs
  induction fs with
  | nil => intro f h; cases h
  | cons g fs ih =>
    intro f h
    rcases List.mem_cons.mp h with rfl | h
    · simp only [List.foldr_cons]; omega
    · have := ih f h
      simp only [List.foldr_cons]; omega

/-- A resolved module's code is the content of some library file. -/
theorem resolveModulePath_mem (lib : LuaLib) (id code : String)
    (h : resolveModulePath lib id = some code) :
    ∃ f, f ∈ lib.files ∧ f.2 = code := by
  unfold resolveModulePath lookupFile at h
  cases h1 : lib.files.find? (fun f => f.1 == normalizeId id ++ ".lua") with
  | some f =>
    rw [h1] at h
    simp only [Option.some.injEq] at h
    exact ⟨f, List.mem_of_find?_eq_some h1, h⟩
  | none =>
    rw [h1] at h
    cases h2 : lib.files.find? (fun f => f.1 == normalizeId id ++ ".ttslua") with
    | some f =>
      rw [h2] at h
      simp only [Option.some.injEq] at h
      exact ⟨f, List.mem_of_find?_eq_some h2, h⟩
    | none => rw [h2] at h; cases h

/-- Fuel sufficiency: with fuel at least `|ids| + 1 + unvis·(subsBound+2)`
the walk never exhausts its fuel — this is the termination argument for
the bundler's recursion, valid for every module graph including cyclic
ones. `U` is any list of ids closed under the requires of the library
files and containing the current worklist. -/
theorem loadMany_no_outOfFuel (lib : LuaLib) (U : List String)
    (hU : ∀ f, f ∈ lib.files → ∀ i, i ∈ findRequireIds f.2 → i ∈ U) :
    ∀ (fuel : Nat) (ids pc cc : List String) (st : BState),
      (∀ i, i ∈ ids → i ∈ U) →
      ids.length + 1 + unvis U st.visited * (subsBound lib + 2) ≤ fuel →
      loadMany lib fuel ids pc cc st ≠ .outOfFuel := by
  intro fuel
  induction fuel with
  | zero =>
    intro ids pc cc st _ hΦ
    omega
  | succ fuel ih =>
    intro ids pc cc st hids hΦ
    match ids with
    | [] => simp [loadMany]
    | id :: rest =>
      rw [loadMany]
      by_cases hpc : id ∈ pc
      · rw [if_pos hpc]
        apply ih rest pc cc ⟨st.visited, st.modules, st.warns + 1⟩
          (fun i hi => hids i (by simp [hi]))
        dsimp only
        simp only [List.length_cons] at hΦ
        omega
      · rw [if_neg hpc]
        by_cases hv : id ∈ st.visited
        · rw [if_pos hv]
          apply ih rest pc cc st (fun i hi => hids i (by simp [hi]))
          simp only [List.length_cons] at hΦ
          omega
        · rw [if_neg hv]
          cases hres : resolveModulePath lib id with
          | none => simp
          | some code =>
            simp only
            have hsubU : ∀ i, i ∈ findRequireIds code → i ∈ U := by
              obtain ⟨f, hf, hcode⟩ := resolveModulePath_mem lib id code hres
              intro i hi
              exact hU f hf i (by rw [hcode]; exact hi)
            have hlen : (findRequireIds code).length ≤ subsBound lib := by
              obtain ⟨f, hf, hcode⟩ := resolveModulePath_mem lib id code hres
              have := subs_le_foldr lib.files f hf
              rw [hcode] at this
              exact this
            have hdec : unvis U (id :: st.visited) < unvis U st.visited :=
              unvis_cons_lt U id st.visited (hids id (by simp)) hv
            have h1 : unvis U (id :: st.visited) * (subsBound lib + 2) + (subsBound lib + 2) ≤
                unvis U st.visited * (subsBound lib + 2) := by
              have hstep : unvis U (id :: st.visited) + 1 ≤ unvis U st.visited := hdec
              have := Nat.mul_le_mul_right (subsBound lib + 2) hstep
              rw [Nat.succ_mul] at this
              exact this
            have hΦin : (findRequireIds code).length + 1 +
                unvis U (id :: st.visited) * (subsBound lib + 2) ≤ fuel := by
              simp only [List.length_cons] at hΦ
              omega
            cases hin : loadMany lib fuel (findRequireIds code) cc (cc ++ [id])
                { st with visited := id :: st.visited } with
            | outOfFuel =>
              exact absurd hin
                (ih (findRequireIds code) cc (cc ++ [id])
                  ⟨id :: st.visited, st.modules, st.warns⟩ hsubU hΦin)
            | fatal i => simp [hin]
            | ok st2 =>
              simp only [hin]
              have hmono := (loadMany_ok_spec lib fuel _ _ _ _ _ hin).1
              dsimp only at hmono
              have hm2 : unvis U st2.visited ≤ unvis U (id :: st.visited) :=
                unvis_mono U hmono
              have h2 : unvis U st2.visited * (subsBound lib + 2) ≤
                  unvis U (id :: st.visited) * (subsBound lib + 2) :=
                Nat.mul_le_mul_right _ hm2
              apply ih rest pc cc ⟨st2.visited, st2.modules ++ [(id, code)], st2.warns⟩
                (fun i hi => hids i (by simp [hi]))
              dsimp only
              simp only [List.length_cons] at hΦ
              omega

/-- Joining a nonempty tail: the separator sits between head and rest. -/
theorem joinSep_cons_of_ne_nil (sep x : String) (xs : List String) (h : xs ≠ []) :
    joinSep sep (x :: xs) = x ++ sep ++ joinSep sep xs := by
  cases xs with
  | nil => cases h rfl
  | cons b t => rfl

/-- The last element of a joined list is a suffix of the join. -/
theorem joinSep_append_singleton (sep : String) :
    ∀ (l : List String) (x : String), ∃ p, joinSep sep (l ++ [x]) = p ++ x := by
  intro l
  induction l with
  | nil =>
    intro x
    refine ⟨"", ?_⟩
    simp [joinSep]
  | cons a l ih =>
    intro x
    obtain ⟨p, hp⟩ := ih x
    have hne : l ++ [x] ≠ [] := by simp
    refine ⟨a ++ sep ++ p, ?_⟩
    rw [List.cons_append, joinSep_cons_of_ne_nil sep a (l ++ [x]) hne, hp]
    simp [String.append_assoc]

/-- The two-module acyclic chain: the root requires `A`, `A` requires
`B`, and `B` requires nothing. -/
def chainLib : LuaLib :=
  ⟨true, [("A.lua", "require \"B\"\nreturn 1"), ("B.lua", "return 2")]⟩

/-- Modelled from the spec sentence behind claim C3 (its pre-order
reading): each module id is emitted *at the point it is first
discovered* by the depth-first walk from each root-level reference,
respecting the global visited set and skipping already-visited ids and
ancestor-chain (cycle) edges.  Returns the emitted id order and final
visited set. -/
def preOrderIds (lib : LuaLib) :
    Nat → List String → List String → List String → List String → List String →
      Option (List String × List String)
  | 0, _, _, _, _, _ => none
  | _ + 1, [], _, _, visited, em => some (em, visited)
  | fuel + 1, id :: rest, pc, cc, visited, em =>
    if id ∈ pc then preOrderIds lib fuel rest pc cc visited em
    else if id ∈ visited then preOrderIds lib fuel rest pc cc visited em
    else
      match resolveModulePath lib id with
      | none => none
      | some code =>
        match preOrderIds lib fuel (findRequireIds code) cc (cc ++ [id])
            (id :: visited) (em ++ [id]) with
        | some (em2, v2) => preOrderIds lib fuel rest pc cc v2 em2
        | none => none
termination_by structural fuel _ _ _ _ _ => fuel

/-- Modelled from the amended claim: post-order — each module id is
appended at the point its depth-first traversal *completes*, respecting
the global visited set and skipping already-visited ids and
ancestor-chain (cycle) edges.  Returns the emitted id order and final
visited set. -/
def completionOrderIds (lib : LuaLib) :
    Nat → List String → List String → List String → List String → List String →
      Option (List String × List String)
  | 0, _, _, _, _, _ => none
  | _ + 1, [], _, _, visited, em => some (em, visited)
  | fuel + 1, id :: rest, pc, cc, visited, em =>
    if id ∈ pc then completionOrderIds lib fuel rest pc cc visited em
    else if id ∈ visited then completionOrderIds lib fuel rest pc cc visited em
    else
      match resolveModulePath lib id with
      | none => none
      | some code =>
        match completionOrderIds lib fuel (findRequireIds code) cc (cc ++ [id])
            (id :: visited) em with
        | some (em2, v2) => completionOrderIds lib fuel rest pc cc v2 (em2 ++ [id])
        | none => none
termination_by structural fuel _ _ _ _ _ => fuel

/-- The implementation's emission order is exactly the completion
(post-)order of the depth-first walk. -/
theorem loadMany_completionOrder (lib : LuaLib) :
    ∀ (fuel : Nat) (ids pc cc v : List String) (mods : List (String × String))
      (w : Nat) (st' : BState),
      loadMany lib fuel ids pc cc ⟨v, mods, w⟩ = .ok st' →
      completionOrderIds lib fuel ids pc cc v (mods.map Prod.fst) =
        some (st'.modules.map Prod.fst, st'.visited) := by
  intro fuel
  induction fuel with
  | zero => intro ids pc cc v mods w st' h; simp [loadMany] at h
  | succ fuel ih =>
    intro ids pc cc v mods w st' h
    match ids with
    | [] =>
      simp only [loadMany, BResult.ok.injEq] at h
      subst h
      simp [completionOrderIds]
    | id :: rest =>
      rw [loadMany] at h
      rw [completionOrderIds]
      by_cases hpc : id ∈ pc
      · rw [if_pos hpc] at h ⊢
        exact ih rest pc cc v mods (w + 1) st' h
      · rw [if_neg hpc] at h ⊢
        by_cases hv : id ∈ v
        · rw [if_pos hv] at h ⊢
          exact ih rest pc cc v mods w st' h
        · rw [if_neg hv] at h ⊢
          cases hres : resolveModulePath lib id with
          | none => simp [hres] at h
          | some code =>
            simp only [hres] at h ⊢
            cases hin : loadMany lib fuel (findRequireIds code) cc (cc ++ [id])
                ⟨id :: v, mods, w⟩ with
            | fatal i => simp [hin] at h
            | outOfFuel => simp [hin] at h
            | ok st2 =>
              simp only [hin] at h
              have hinner := ih _ _ _ _ _ _ _ hin
              rw [hinner]
              have hcont := ih rest pc cc st2.visited (st2.modules ++ [(id, code)]) st2.warns st' h
              simpa using hcont

/-! ### Claim theorems for the bundler -/

/-- C1: pass-through rule — when reference extraction finds no module
ids in the root source, `bundleLuaIfNeeded` returns the source
byte-identical, with no runtime preamble, wrapper, or entry-point
invocation added. -/
theorem bundle_passthrough (rootCode who : String) (lib : LuaLib)
    (h : findRequireIds rootCode = []) :
    bundleLuaIfNeeded rootCode who lib = .ok rootCode := by
  unfold bundleLuaIfNeeded
  simp [h]

/-- Witness for C1 at a concrete require-free source. -/
theorem bundle_passthrough_witness :
    findRequireIds "print(\x27hello\x27)" = [] ∧
    bundleLuaIfNeeded "print(\x27hello\x27)" "Global" cycleLib = .ok "print(\x27hello\x27)" :=
  ⟨by decide, bundle_passthrough "print(\x27hello\x27)" "Global" cycleLib (by decide)⟩

/-- C9: reference extraction is purely textual — a `require` that occurs
only inside a Lua comment line is still extracted, so the bundler does
not take the pass-through branch for that source and instead tries to
resolve the commented-out id (fatally, when no module file exists). -/
theorem findRequireIds_sees_comments :
    findRequireIds "\x2d- require(\"util/math\")" = ["util/math"] ∧
    bundleLuaIfNeeded "\x2d- require(\"util/math\")" "script" ⟨true, []⟩ =
      .fatal "Missing Lua module \"util/math\" → expected: ./lib/util/math.lua or .ttslua" := by
  exact ⟨by decide, by decide⟩

/-- C4: cycle termination — for every module graph (cyclic ones
included) the walk never exhausts the fuel `bundleLuaIfNeeded` gives it
(the recursion terminates), every successful walk emits at most one body
per unique module id, and on the concrete cycle `A → B → A` bundling a
root referencing `A` emits exactly one body for each of `A` and `B` and
exactly one circular-require warning. -/
theorem bundler_cycle_termination :
    (∀ (rootCode who : String) (lib : LuaLib),
      bundleLuaIfNeeded rootCode who lib ≠ .outOfFuel) ∧
    (∀ (lib : LuaLib) (fuel : Nat) (ids pc cc : List String) (st' : BState),
      loadMany lib fuel ids pc cc ⟨[], [], 0⟩ = .ok st' →
      (st'.modules.map Prod.fst).Nodup) ∧
    loadMany cycleLib (initFuel cycleLib ["A"]) ["A"] [] ["__root"] ⟨[], [], 0⟩ =
      .ok ⟨["B", "A"],
        [("B", "require \"A\"\nreturn 2"), ("A", "require \"B\"\nreturn 1")], 1⟩ := by
  refine ⟨?_, ?_, by decide⟩
  · intro rootCode who lib
    unfold bundleLuaIfNeeded
    cases hreq : (findRequireIds rootCode).isEmpty with
    | true => simp [hreq]
    | false =>
      simp only [hreq, Bool.false_eq_true, if_false]
      cases hex : lib.libExists with
      | false => simp
      | true =>
        simp only [hex, Bool.not_true, Bool.false_eq_true, if_false]
        have hno : loadMany lib (initFuel lib (findRequireIds rootCode))
            (findRequireIds rootCode) [] ["__root"] ⟨[], [], 0⟩ ≠ .outOfFuel := by
          apply loadMany_no_outOfFuel lib (requireUniverse lib (findRequireIds rootCode))
          · intro f hf i hi
            unfold requireUniverse
            rw [List.mem_append]
            right
            rw [List.mem_flatMap]
            exact ⟨f, hf, hi⟩
          · intro i hi
            unfold requireUniverse
            rw [List.mem_append]
            exact Or.inl hi
          · exact Nat.le_of_eq rfl
        cases hrun : loadMany lib (initFuel lib (findRequireIds rootCode))
            (findRequireIds rootCode) [] ["__root"] ⟨[], [], 0⟩ with
        | ok st => simp [hrun]
        | fatal i => simp [hrun]
        | outOfFuel => exact absurd hrun hno
  · intro lib fuel ids pc cc st' h
    obtain ⟨-, newMods, hm, -, hnd⟩ := loadMany_ok_spec lib fuel ids pc cc ⟨[], [], 0⟩ st' h
    dsimp only at hm
    rw [hm]
    simpa using hnd

/-- Witness for C4's universally quantified components at the concrete
cycle. -/
theorem bundler_cycle_termination_witness :
    ((⟨["B", "A"],
        [("B", "require \"A\"\nreturn 2"), ("A", "require \"B\"\nreturn 1")],
        1⟩ : BState).modules.map Prod.fst).Nodup :=
  bundler_cycle_termination.2.1 cycleLib (initFuel cycleLib ["A"]) ["A"] [] ["__root"]
    ⟨["B", "A"], [("B", "require \"A\"\nreturn 2"), ("A", "require \"B\"\nreturn 1")], 1⟩
    (by decide)

/-- C3 counterexample: on the acyclic chain `root → A → B` the
implementation emits `B` before `A` (the push happens after the
recursive walk of a module's requires), while emission at the point of
first discovery — as the claim states — would put `A` before `B`. -/
theorem bundle_emission_preorder_counterexample :
    (∃ st',
      loadMany chainLib (initFuel chainLib ["A"]) ["A"] [] ["__root"] ⟨[], [], 0⟩ =
        .ok st' ∧
      st'.modules.map Prod.fst = ["B", "A"]) ∧
    preOrderIds chainLib (initFuel chainLib ["A"]) ["A"] [] ["__root"] [] [] =
      some (["A", "B"], ["B", "A"]) ∧
    (["B", "A"] : List String) ≠ ["A", "B"] := by
  refine ⟨⟨⟨["B", "A"], [("B", "return 2"), ("A", "require \"B\"\nreturn 1")], 0⟩,
    by decide, by decide⟩, by decide, by decide⟩

/-- C3 amended: module bodies appear in the emitted bundle in
*post-order* of the depth-first traversal from each root-level reference
(each module is emitted at the point its traversal *completes*,
respecting the global visited set), followed by the root body last,
registered as the distinguished `__root` entry point whose invocation
closes the bundle. -/
theorem bundle_emission_postorder (rootCode who out : String) (lib : LuaLib)
    (hreq : findRequireIds rootCode ≠ [])
    (h : bundleLuaIfNeeded rootCode who lib = .ok out) :
    ∃ st',
      loadMany lib (initFuel lib (findRequireIds rootCode)) (findRequireIds rootCode)
          [] ["__root"] ⟨[], [], 0⟩ = .ok st' ∧
      completionOrderIds lib (initFuel lib (findRequireIds rootCode))
          (findRequireIds rootCode) [] ["__root"] [] [] =
        some (st'.modules.map Prod.fst, st'.visited) ∧
      out = joinSep "\n\n"
        (emitLuabundleHeader :: st'.modules.map renderModule ++ [renderRoot rootCode]) ∧
      ∃ p, out = p ++ renderRoot rootCode := by
  unfold bundleLuaIfNeeded at h
  rw [if_neg (by simpa using hreq)] at h
  cases hex : lib.libExists with
  | false => simp [hex] at h
  | true =>
    simp only [hex, Bool.not_true, Bool.false_eq_true, if_false] at h
    cases hrun : loadMany lib (initFuel lib (findRequireIds rootCode))
        (findRequireIds rootCode) [] ["__root"] ⟨[], [], 0⟩ with
    | fatal i => simp [hrun] at h
    | outOfFuel => simp [hrun] at h
    | ok st =>
      simp only [hrun, BundleOut.ok.injEq] at h
      refine ⟨st, rfl, ?_, h.symm, ?_⟩
      · have := loadMany_completionOrder lib (initFuel lib (findRequireIds rootCode))
          (findRequireIds rootCode) [] ["__root"] [] [] 0 st hrun
        simpa using this
      · obtain ⟨p, hp⟩ := joinSep_append_singleton "\n\n"
          (emitLuabundleHeader :: st.modules.map renderModule) (renderRoot rootCode)
        exact ⟨p, by rw [← h]; exact hp⟩

/-- The concrete bundle output for the chain example, used by
witnesses. -/
def chainBundled : String :=
  joinSep "\n\n" (emitLuabundleHeader ::
    [renderModule ("B", "return 2"), renderModule ("A", "require \"B\"\nreturn 1")] ++
    [renderRoot "require \"A\""])

/-- Evaluating the bundler on the chain example (for any `who` label):
the two sides are built by the same constructors, so this is
definitional. -/
theorem chainBundle_eval (who : String) :
    bundleLuaIfNeeded "require \"A\"" who chainLib = .ok chainBundled := rfl

/-- Witness for the amended C3 at the concrete chain. -/
theorem bundle_emission_postorder_witness :
    ∃ st',
      loadMany chainLib (initFuel chainLib ["A"]) ["A"] [] ["__root"] ⟨[], [], 0⟩ =
        .ok st' ∧
      completionOrderIds chainLib (initFuel chainLib ["A"]) ["A"] [] ["__root"] [] [] =
        some (st'.modules.map Prod.fst, st'.visited) ∧
      chainBundled = joinSep "\n\n"
        (emitLuabundleHeader :: st'.modules.map renderModule ++
          [renderRoot "require \"A\""]) ∧
      ∃ p, chainBundled = p ++ renderRoot "require \"A\"" :=
  bundle_emission_postorder "require \"A\"" "Global" chainBundled chainLib
    (by decide) (chainBundle_eval "Global")

/-- C7: bundling determinism — the produced output depends only on the
root source and the module library (the `who` label influences only
diagnostic messages, never a successful output), and every bundled
(non-pass-through) output begins with the fixed runtime preamble
`emitLuabundleHeader`, a single constant emitted verbatim on every
call. -/
theorem bundle_deterministic :
    (∀ (rootCode : String) (lib : LuaLib) (w1 w2 out : String),
      bundleLuaIfNeeded rootCode w1 lib = .ok out →
      bundleLuaIfNeeded rootCode w2 lib = .ok out) ∧
    (∀ (rootCode who out : String) (lib : LuaLib),
      findRequireIds rootCode ≠ [] →
      bundleLuaIfNeeded rootCode who lib = .ok out →
      ∃ rest, out = emitLuabundleHeader ++ "\n\n" ++ rest) := by
  constructor
  · intro rootCode lib w1 w2 out h
    unfold bundleLuaIfNeeded at h ⊢
    cases hemp : (findRequireIds rootCode).isEmpty with
    | true => rw [if_pos (by simp [hemp])] at h ⊢; exact h
    | false =>
      rw [if_neg (by simp [hemp])] at h ⊢
      cases hex : lib.libExists with
      | false => simp [hex] at h
      | true =>
        simp only [hex, Bool.not_true, Bool.false_eq_true, if_false] at h ⊢
        cases hrun : loadMany lib (initFuel lib (findRequireIds rootCode))
            (findRequireIds rootCode) [] ["__root"] ⟨[], [], 0⟩ with
        | ok st => simp only [hrun] at h ⊢; exact h
        | fatal i => simp [hrun] at h
        | outOfFuel => simp [hrun] at h
  · intro rootCode who out lib hreq h
    obtain ⟨st, -, -, hout, -⟩ := bundle_emission_postorder rootCode who out lib hreq h
    refine ⟨joinSep "\n\n" (st.modules.map renderModule ++ [renderRoot rootCode]), ?_⟩
    rw [hout]
    exact joinSep_cons_of_ne_nil "\n\n" emitLuabundleHeader
      (st.modules.map renderModule ++ [renderRoot rootCode]) (by simp)

/-- Witness for C7 at the concrete chain: the `who` label does not
change the output, and the output starts with the preamble. -/
theorem bundle_deterministic_witness :
    bundleLuaIfNeeded "require \"A\"" "Global" chainLib = .ok chainBundled ∧
    ∃ rest, chainBundled = emitLuabundleHeader ++ "\n\n" ++ rest :=
  ⟨bundle_deterministic.1 "require \"A\"" chainLib "object:abc123" "Global" chainBundled
      (chainBundle_eval "object:abc123"),
   bundle_deterministic.2 "require \"A\"" "Global" chainBundled chainLib
      (by decide)
      (bundle_deterministic.1 "require \"A\"" chainLib "object:abc123" "Global" chainBundled
        (chainBundle_eval "object:abc123"))⟩

/-! ## Manifest entries and the stable sibling sort -/

/-- One row of `manifest.json`: `type`, `name`, `nickname`, `guid`,
`file` (path relative to the source root), `parent` (owning guid or
null) and `order` (numeric sibling position, or absent).  Nullable
string fields are `Option String`; a JavaScript value that is not a
number (for the `typeof a.order === \x27number\x27 ` test) is `none`. -/
structure ManifestEntry where
  type : String
  name : Option String
  nickname : Option String
  guid : Option String
  file : String
  parent : Option String
  order : Option Int
deriving DecidableEq, Repr

/-- JavaScript truthiness of a nullable string (null, undefined and ""
are falsy). -/
def jsTruthy : Option String → Bool
  | none => false
  | some s => s ≠ ""

/-- The comparator of `sortByOrderStable`:
`(typeof a.order === \x27number\x27 ? a.order : +Infinity) - (same for b)`.
A missing `order` behaves as `+Infinity`; the subtraction of two
infinities yields `NaN`, which `Array.prototype.sort` treats as `+0`
(equal), so two orderless entries compare equal. -/
def orderLE (a b : ManifestEntry) : Bool :=
  match a.order, b.order with
  | some x, some y => decide (x ≤ y)
  | some _, none => true
  | none, some _ => false
  | none, none => true

theorem orderLE_trans (a b c : ManifestEntry) :
    orderLE a b → orderLE b c → orderLE a c := by
  unfold orderLE
  cases a.order <;> cases b.order <;> cases c.order <;> simp <;> omega

theorem orderLE_total (a b : ManifestEntry) : orderLE a b || orderLE b a := by
  unfold orderLE
  cases a.order <;> cases b.order <;> simp <;> omega

/-- `orderLE` as a relation. -/
def entryLE (a b : ManifestEntry) : Prop := orderLE a b = true

instance : DecidableRel entryLE := fun a b =>
  inferInstanceAs (Decidable (orderLE a b = true))

instance : IsTotal ManifestEntry entryLE :=
  ⟨fun a b => by simpa [entryLE, Bool.or_eq_true] using orderLE_total a b⟩

instance : IsTrans ManifestEntry entryLE :=
  ⟨fun a b c hab hbc => orderLE_trans a b c hab hbc⟩

/-- `arr.slice().sort(comparator)`: V8's `Array.prototype.sort` is
stable, and the comparator is the consistent total preorder `orderLE`
(see its doc comment for the `NaN` case), so the call is a stable sort
by `orderLE`, modelled by the stable `List.insertionSort`. -/
def sortByOrderStable (arr : List ManifestEntry) : List ManifestEntry :=
  List.insertionSort entryLE arr

/-- C2: sibling ordering law — `sortByOrderStable` returns the group
sorted by numeric `order` ascending, every entry lacking a numeric
`order` is placed after all entries that have one, the result is a
permutation of its input, and entries with equal keys (including two
entries both lacking `order`) keep their original relative order: for
every key, filtering the output by that key gives exactly the input
filtered by that key. -/
theorem sortByOrderStable_spec (l : List ManifestEntry) :
    (sortByOrderStable l).Pairwise entryLE ∧
    (sortByOrderStable l).Pairwise (fun a b => a.order = none → b.order = none) ∧
    (sortByOrderStable l).Perm l ∧
    ∀ k : Option Int,
      (sortByOrderStable l).filter (fun e => e.order == k) =
        l.filter (fun e => e.order == k) := by
  have hsorted : (sortByOrderStable l).Pairwise entryLE :=
    List.sorted_insertionSort entryLE l
  refine ⟨hsorted, ?_, List.perm_insertionSort entryLE l, ?_⟩
  · apply hsorted.imp
    intro a b hab ha
    cases hb : b.order with
    | none => rfl
    | some y =>
      rw [entryLE, orderLE, ha, hb] at hab
      cases hab
  · intro k
    have hfp : ∀ a b : ManifestEntry,
        (a.order == k) = true → (b.order == k) = true → entryLE a b := by
      intro a b ha hb
      rw [beq_iff_eq] at ha hb
      rw [entryLE, orderLE, ha, hb]
      cases k with
      | none => rfl
      | some x => simp
    have hpair : (l.filter (fun e => e.order == k)).Pairwise entryLE := by
      apply List.pairwise_of_forall_mem_list
      intro a ha b hb
      exact hfp a b (List.mem_filter.mp ha).2 (List.mem_filter.mp hb).2
    have hsub : List.Sublist (l.filter (fun e => e.order == k)) (sortByOrderStable l) :=
      List.sublist_insertionSort hpair (List.filter_sublist l)
    have hsub2 : List.Sublist (l.filter (fun e => e.order == k))
        ((sortByOrderStable l).filter (fun e => e.order == k)) := by
      have h2 := List.Sublist.filter (fun e => e.order == k) hsub
      rw [List.filter_filter] at h2
      simpa only [Bool.and_self] using h2
    have hperm : ((sortByOrderStable l).filter (fun e => e.order == k)).Perm
        (l.filter (fun e => e.order == k)) :=
      (List.perm_insertionSort entryLE l).filter _
    exact (hsub2.eq_of_length hperm.length_eq.symm).symm

/-! ## The file-name sanitizer -/

/-- The regex class `[\u0000-\u001F\u007F]` (control characters). -/
def isControlChar (c : Char) : Bool := c.toNat ≤ 0x1f || c.toNat == 0x7f

/-- The trim class `[\s._]` used on both ends. -/
def isTrimChar (c : Char) : Bool := isJsSpace c || c == '.' || c == '_'

/-- Global replacement of every maximal run of `p`-characters by the
single character `r` (the effect of `replace(/p+/g, r)`); the flag
records whether the previous character was part of a run.  For the
`/\.\x7b2,\x7d/g → "."` step, note that replacing only runs of length at
least two and replacing every run both leave a lone `.` unchanged, so
this same function models that step too. -/
def squeezeWith (p : Char → Bool) (r : Char) : List Char → Bool → List Char
  | [], _ => []
  | c :: rest, inRun =>
    if p c then
      if inRun then squeezeWith p r rest true
      else r :: squeezeWith p r rest true
    else c :: squeezeWith p r rest false

/-- The character class `[\p{L}\p{N}_\-.]` kept by the sanitizer, with
the Unicode letter/number test `isLN` supplied by the caller. -/
def keepChar (isLN : Char → Bool) (c : Char) : Bool :=
  isLN c || c == '_' || c == '-' || c == '.'

/-- `replace(/[\s._]+$/, "")`. -/
def trimEndList (p : Char → Bool) (l : List Char) : List Char :=
  (l.reverse.dropWhile p).reverse

/-- The cleanup phase of `sanitizeFileNameStrict` (everything before the
reserved-name test): stringify with `?? ""`, NFC-normalize (through the
caller-supplied `nfc`), strip control characters, squeeze whitespace
runs into `_`, replace every character outside `[\p{L}\p{N}_\-.]` by
`_`, squeeze `_`-runs and `.`-runs, trim `[\s._]+` from both ends, and
fall back when the result is empty, `"."`, or `".."`. -/
def sanitizeClean (nfc : String → String) (isLN : Char → Bool)
    (input : Option String) (fallback : String) : String :=
  let s0 := (nfc (match input with | some s => s | none => "")).toList
  let s1 := s0.filter (fun c => !(isControlChar c))
  let s2 := squeezeWith isJsSpace '_' s1 false
  let s3 := s2.map (fun c => if keepChar isLN c then c else '_')
  let s4 := squeezeWith (fun c => c == '_') '_' s3 false
  let s5 := squeezeWith (fun c => c == '.') '.' s4 false
  let s6 := s5.dropWhile isTrimChar
  let s7 := trimEndList isTrimChar s6
  if s7 = [] ∨ s7 = ['.'] ∨ s7 = ['.', '.'] then fallback else String.mk s7

/-- `[1-9]`. -/
def isDigit19 (c : Char) : Bool := '1' ≤ c && c ≤ '9'

/-- The case-folded character list used by the `/i` regex flag. -/
def lowerList (s : String) : List Char := s.toList.map Char.toLower

/-- The reserved-basename regex
`/^(con|prn|aux|nul|com[1-9]|lpt[1-9])$/i` (case-insensitive full
match). -/
def isReservedName (s : String) : Bool :=
  lowerList s == "con".toList || lowerList s == "prn".toList ||
  lowerList s == "aux".toList || lowerList s == "nul".toList ||
  ((lowerList s).length == 4 &&
    ((lowerList s).take 3 == "com".toList || (lowerList s).take 3 == "lpt".toList) &&
    ((lowerList s).drop 3).all isDigit19)

/-- `sanitizeFileNameStrict(input, fallback)`: the cleanup phase, then a
leading underscore for Windows-reserved basenames, then truncation to 50
characters, then a final (unreachable) empty-string fallback. -/
def sanitizeFileNameStrict (nfc : String → String) (isLN : Char → Bool)
    (input : Option String) (fallback : String) : String :=
  let s1 := sanitizeClean nfc isLN input fallback
  let s2 := if isReservedName s1 then "_" ++ s1 else s1
  let s3 := if 50 < s2.length then String.mk (s2.toList.take 50) else s2
  if s3 = "" then fallback else s3

/-- A reserved basename has three or four characters. -/
theorem isReservedName_length (s : String) (h : isReservedName s = true) :
    s.length ≤ 4 := by
  have hlen : (lowerList s).length = s.length := by
    rw [lowerList, List.length_map]
    rfl
  unfold isReservedName at h
  simp only [Bool.or_eq_true, Bool.and_eq_true, beq_iff_eq] at h
  rcases h with (((h | h) | h) | h) | ⟨⟨h4, -⟩, -⟩
  · rw [h] at hlen
    have h3 : ("con".toList).length = 3 := rfl
    omega
  · rw [h] at hlen
    have h3 : ("prn".toList).length = 3 := rfl
    omega
  · rw [h] at hlen
    have h3 : ("aux".toList).length = 3 := rfl
    omega
  · rw [h] at hlen
    have h3 : ("nul".toList).length = 3 := rfl
    omega
  · omega

/-- The cleanup phase never returns the empty string (with the default
fallback). -/
theorem sanitizeClean_ne_empty (nfc : String → String) (isLN : Char → Bool)
    (input : Option String) : sanitizeClean nfc isLN input "TTS_Save" ≠ "" := by
  unfold sanitizeClean
  dsimp only
  split
  · decide
  · rename_i hcond
    intro heq
    apply hcond
    left
    have hdata := congrArg String.data heq
    simpa using hdata

/-- C8: sanitizer totality — for every input (null/undefined, empty or
arbitrary strings) and for every interpretation of the Unicode
primitives, `sanitizeFileNameStrict` returns a non-empty string of at
most 50 characters, and an input whose cleanup reduces to a
Windows-reserved basename is returned with a leading underscore (the
underscore prepended to that basename). -/
theorem sanitizeFileNameStrict_total (nfc : String → String) (isLN : Char → Bool)
    (input : Option String) :
    (sanitizeFileNameStrict nfc isLN input "TTS_Save" ≠ "" ∧
      (sanitizeFileNameStrict nfc isLN input "TTS_Save").length ≤ 50) ∧
    (isReservedName (sanitizeClean nfc isLN input "TTS_Save") = true →
      sanitizeFileNameStrict nfc isLN input "TTS_Save" =
        "_" ++ sanitizeClean nfc isLN input "TTS_Save") := by
  have hne := sanitizeClean_ne_empty nfc isLN input
  have hu : ("_" : String).length = 1 := rfl
  have h0 : ("" : String).length = 0 := rfl
  unfold sanitizeFileNameStrict
  dsimp only
  by_cases hres : isReservedName (sanitizeClean nfc isLN input "TTS_Save") = true
  · rw [if_pos hres]
    have hlen4 := isReservedName_length _ hres
    have happ : ("_" ++ sanitizeClean nfc isLN input "TTS_Save").length =
        ("_" : String).length + (sanitizeClean nfc isLN input "TTS_Save").length :=
      String.length_append _ _
    have hnotbig : ¬ 50 < ("_" ++ sanitizeClean nfc isLN input "TTS_Save").length := by
      omega
    rw [if_neg hnotbig]
    have hne2 : "_" ++ sanitizeClean nfc isLN input "TTS_Save" ≠ "" := by
      intro heq
      have hl := congrArg String.length heq
      rw [happ, h0] at hl
      omega
    rw [if_neg hne2]
    exact ⟨⟨hne2, by omega⟩, fun _ => rfl⟩
  · rw [if_neg hres]
    refine ⟨?_, fun hr => absurd hr hres⟩
    by_cases hbig : 50 < (sanitizeClean nfc isLN input "TTS_Save").length
    · rw [if_pos hbig]
      have hSlen : (sanitizeClean nfc isLN input "TTS_Save").toList.length =
          (sanitizeClean nfc isLN input "TTS_Save").length := rfl
      have htake : (String.mk ((sanitizeClean nfc isLN input "TTS_Save").toList.take 50)).length =
          min 50 (sanitizeClean nfc isLN input "TTS_Save").toList.length := by
        show ((sanitizeClean nfc isLN input "TTS_Save").toList.take 50).length = _
        exact List.length_take _ _
      have hne3 : String.mk ((sanitizeClean nfc isLN input "TTS_Save").toList.take 50) ≠ "" := by
        intro heq
        have hl := congrArg String.length heq
        rw [htake, h0] at hl
        omega
      rw [if_neg hne3]
      exact ⟨hne3, by omega⟩
    · rw [if_neg hbig]
      rw [if_neg hne]
      exact ⟨hne, by omega⟩

/-- Witness for C8 at the concrete reserved input `"CON"` (with the
identity normalizer and ASCII alphanumerics for `\p\x7bL\x7d\p\x7bN\x7d`). -/
theorem sanitizeFileNameStrict_total_witness :
    sanitizeFileNameStrict (fun s => s) (fun c => c.isAlphanum) (some "CON") "TTS_Save" =
      "_" ++ sanitizeClean (fun s => s) (fun c => c.isAlphanum) (some "CON") "TTS_Save" :=
  (sanitizeFileNameStrict_total (fun s => s) (fun c => c.isAlphanum) (some "CON")).2
    (by decide)

/-! ## The save-object tree, the splitter, and the reconstructor

A save object carries identity fields (`GUID`, `Name`, `Nickname`),
presence of `Transform` (used by validation), and its
`ContainedObjects`.  The script/state/UI/memo payloads live in sibling
files keyed by the same base path and do not influence the containment
tree, the manifest, the grouping, or validation; they are omitted from
this model. -/

inductive SObj where
  | node (guid name nickname : Option String) (hasTransform : Bool)
      (children : List SObj)

def SObj.guid : SObj → Option String
  | .node g _ _ _ _ => g

def SObj.name : SObj → Option String
  | .node _ n _ _ _ => n

def SObj.nickname : SObj → Option String
  | .node _ _ k _ _ => k

def SObj.hasTransform : SObj → Bool
  | .node _ _ _ t _ => t

def SObj.children : SObj → List SObj
  | .node _ _ _ _ c => c

/-- `obj.ContainedObjects = kids` (the only mutation the reconstructor
performs on a loaded object). -/
def SObj.withChildren : SObj → List SObj → SObj
  | .node g n k t _, cs => .node g n k t cs

/-- `x || y` on a nullable string against a string default. -/
def jsOrStr (o : Option String) (d : String) : String :=
  if jsTruthy o then o.getD "" else d

/-- The splitter's `sanitize(str, fallback = "unnamed")`: like the
merger's sanitizer it strips control characters, squeezes whitespace to
`_`, replaces characters outside `[\p{L}\p{N}_\-.]` by `_`, and
squeezes `_`-runs and `.`-runs; but it trims only `[._]+` (no
whitespace) from the ends, has no reserved-name or `"."`/`".."`
handling, and truncates to 50 characters after applying the
fallback. -/
def splitSanitize (nfc : String → String) (isLN : Char → Bool)
    (input : Option String) (fallback : String) : String :=
  let s0 := (nfc (jsOrStr input "")).toList
  let s1 := s0.filter (fun c => !(isControlChar c))
  let s2 := squeezeWith isJsSpace '_' s1 false
  let s3 := s2.map (fun c => if keepChar isLN c then c else '_')
  let s4 := squeezeWith (fun c => c == '_') '_' s3 false
  let s5 := squeezeWith (fun c => c == '.') '.' s4 false
  let s6 := s5.dropWhile (fun c => c == '.' || c == '_')
  let s7 := trimEndList (fun c => c == '.' || c == '_') s6
  let s8 := if s7 = [] then fallback.toList else s7
  String.mk (s8.take 50)

/-- `x || null` on a nullable string. -/
def jsOrNull (o : Option String) : Option String :=
  if jsTruthy o then o else none

/-- `String(i).padStart(3, "0")`. -/
def padIndex (i : Nat) : String :=
  let s := toString i
  if s.length < 3 then String.mk (List.replicate (3 - s.length) '0') ++ s else s

/-- `path.join(rel, file)` for the two shapes used by the splitter
(`"."` for the top level, a `Contained/...` directory otherwise). -/
def joinPath (rel file : String) : String :=
  if rel = "." then file else rel ++ "/" ++ file

/-- Top-level file name: `Nickname.Name_GUID.json` when both `Nickname`
and `Name` are truthy, else `Name_GUID.json`. -/
def generateTopLevelFilename (nfc : String → String) (isLN : Char → Bool)
    (obj : SObj) : String :=
  let guid := splitSanitize nfc isLN (some (jsOrStr obj.guid "noguid")) "unnamed"
  if jsTruthy obj.nickname ∧ jsTruthy obj.name then
    splitSanitize nfc isLN obj.nickname "unnamed" ++ "." ++
      splitSanitize nfc isLN obj.name "unnamed" ++ "_" ++ guid ++ ".json"
  else
    splitSanitize nfc isLN (some (jsOrStr obj.name "Object")) "unnamed" ++ "_" ++
      guid ++ ".json"

/-- Nested file name: `000_Name_GUID.json`. -/
def generateNestedFilename (nfc : String → String) (isLN : Char → Bool)
    (obj : SObj) (orderIndex : Nat) : String :=
  padIndex orderIndex ++ "_" ++
    splitSanitize nfc isLN (some (jsOrStr obj.name "Object")) "unnamed" ++ "_" ++
    splitSanitize nfc isLN (some (jsOrStr obj.guid "noguid")) "unnamed" ++ ".json"

/-- Children folder: `Contained/<NicknameOrName>_<GUID>`. -/
def generateContainerRelPath (nfc : String → String) (isLN : Char → Bool)
    (parentObj : SObj) : String :=
  "Contained/" ++
    splitSanitize nfc isLN
      (some (jsOrStr parentObj.nickname (jsOrStr parentObj.name "Object"))) "unnamed" ++
    "_" ++ splitSanitize nfc isLN (some (jsOrStr parentObj.guid "noguid")) "unnamed"

/-- The manifest entry pushed for one object. -/
def entryOf (nfc : String → String) (isLN : Char → Bool)
    (obj : SObj) (relPath : String) (parentGuid : Option String) (order : Nat) :
    ManifestEntry :=
  { type := jsOrStr obj.name "Object"
    name := jsOrNull obj.name
    nickname := jsOrNull obj.nickname
    guid := jsOrNull obj.guid
    file := joinPath relPath
      (if relPath = "." then generateTopLevelFilename nfc isLN obj
       else generateNestedFilename nfc isLN obj order)
    parent := parentGuid
    order := some (order : Int) }

/-- A write of one per-object JSON file: path and parsed content.  The
splitter strips only `LuaScript`/`LuaScriptState` before writing, so the
written record is the object itself, with its `ContainedObjects` subtree
still embedded. -/
abbrev FileWrite := String × SObj

/-- `saveObjectToFile` fused with its two calling loops (the
`ContainedObjects` loop and the top-level `ObjectStates` loop) into one
sibling-list function, so the recursion is structural in the fuel
(`saveObjectToFile(objs[j], relPath, parentGuid, i + j)` for each `j`).
For each object: write its JSON file, push its manifest entry, then
recurse into its `ContainedObjects` with the container directory,
`obj.GUID || null` as parent, and indices from 0 (the source guards the
loop with a non-emptiness test, but looping over an empty array writes
nothing, so the recursion is unconditional here).  Returns (writes,
manifest rows) in chronological order. -/
def splitList (nfc : String → String) (isLN : Char → Bool) :
    Nat → List SObj → String → Option String → Nat →
      List FileWrite × List ManifestEntry
  | 0, _, _, _, _ => ([], [])
  | _ + 1, [], _, _, _ => ([], [])
  | fuel + 1, obj :: rest, relPath, parentGuid, i =>
    let fileName := if relPath = "." then generateTopLevelFilename nfc isLN obj
                    else generateNestedFilename nfc isLN obj i
    let jsonPath := joinPath relPath fileName
    let childRes :=
      splitList nfc isLN fuel obj.children
        (generateContainerRelPath nfc isLN obj) (jsOrNull obj.guid) 0
    let restRes := splitList nfc isLN fuel rest relPath parentGuid (i + 1)
    ((jsonPath, obj) :: childRes.1 ++ restRes.1,
      entryOf nfc isLN obj relPath parentGuid i :: childRes.2 ++ restRes.2)
termination_by structural fuel _ _ _ _ => fuel

/-- Just the manifest rows that `splitList` produces for the sibling
objects themselves (their children's rows excluded): the entry of
`objs[j]` with order `i + j`. -/
def topEntries (nfc : String → String) (isLN : Char → Bool) :
    List SObj → String → Option String → Nat → List ManifestEntry
  | [], _, _, _ => []
  | obj :: rest, relPath, parentGuid, i =>
    entryOf nfc isLN obj relPath parentGuid i ::
      topEntries nfc isLN rest relPath parentGuid (i + 1)

/-! ### The reconstructor -/

/-- The on-disk source tree: paths mapped to parse results (`none`
models a file whose content is not valid JSON).  Later writes shadow
earlier ones, as `fs.writeFileSync` overwrites. -/
abbrev FileStore := List (String × Option SObj)

/-- `fs.existsSync` + `JSON.parse(fs.readFileSync(...))`: `none` when
the path does not exist, `some none` when it exists but does not parse,
`some (some o)` otherwise. -/
def readStore (store : FileStore) (p : String) : Option (Option SObj) :=
  match store.reverse.find? (fun e => e.1 == p) with
  | some e => some e.2
  | none => none

/-- `path.join(srcDir, entry.file)` with the default `./src` root. -/
def fullPathOf (file : String) : String := "src/" ++ file

/-- Template-literal rendering of a nullable string (`null` prints as
`"null"`). -/
def showOpt : Option String → String
  | some s => s
  | none => "null"

/-- The two `console.error` lines printed for a missing manifest file,
naming the entry's guid and the expected path. -/
def missingFileMsg (e : ManifestEntry) : String :=
  "❌ Missing file for entry: " ++ e.type ++ " \"" ++ showOpt e.nickname ++ "\" (" ++
    showOpt e.guid ++ ")\nExpected path: " ++ fullPathOf e.file

/-- `fileExistsStrict(entry)`: fatal when the file is missing or
unparsable, or when both the entry and the file declare a guid and they
differ. -/
def fileExistsStrict (store : FileStore) (e : ManifestEntry) : Except String Unit :=
  match readStore store e.file with
  | none => .error (missingFileMsg e)
  | some none => .error ("❌ Invalid JSON: " ++ fullPathOf e.file)
  | some (some obj) =>
    if jsTruthy e.guid ∧ jsTruthy obj.guid ∧ e.guid ≠ obj.guid then
      .error ("❌ GUID mismatch: manifest(" ++ showOpt e.guid ++ ") != file(" ++
        showOpt obj.guid ++ ") at " ++ e.file)
    else .ok ()

/-- `manifest.forEach(fileExistsStrict)`: stops at the first fatal
entry. -/
def checkManifest (store : FileStore) : List ManifestEntry → Except String Unit
  | [] => .ok ()
  | e :: rest =>
    match fileExistsStrict store e with
    | .error m => .error m
    | .ok _ => checkManifest store rest

/-- The grouping key `entry.parent || "__root__"` used when building
`manifestMap`. -/
def groupKey (e : ManifestEntry) : String :=
  if jsTruthy e.parent then e.parent.getD "" else "__root__"

/-- `manifestMap[k]`: the manifest rows whose parent key is `k`, in
manifest (insertion) order. -/
def childrenOf (manifest : List ManifestEntry) (k : String) : List ManifestEntry :=
  manifest.filter (fun e => groupKey e == k)

/-- The key used for the child lookup `manifestMap[entry.guid]`: a
JavaScript property access stringifies `null` to the key `"null"`. -/
def childLookupKey (e : ManifestEntry) : String :=
  match e.guid with
  | some g => g
  | none => "null"

/-- `loadObjectFromManifest` fused with the `children.map(...)` loop and
the top-level `topLevel.map(...)` loop into one entry-list function
(structural in the fuel): read each entry's JSON file, look up its
children group by guid, stable-sort it by `order`, and attach the
recursively loaded children only when the group is non-empty (otherwise
the `ContainedObjects` embedded in the file, if any, stay as they
are). -/
def loadObjects (manifest : List ManifestEntry) (store : FileStore) :
    Nat → List ManifestEntry → Except String (List SObj)
  | 0, _ => .error "⛽ out of fuel"
  | _ + 1, [] => .ok []
  | fuel + 1, e :: rest =>
    match readStore store e.file with
    | none => .error (missingFileMsg e)
    | some none => .error ("❌ Invalid JSON: " ++ fullPathOf e.file)
    | some (some obj) =>
      let children := sortByOrderStable (childrenOf manifest (childLookupKey e))
      let loaded : Except String SObj :=
        match children with
        | [] => .ok obj
        | _ :: _ =>
          match loadObjects manifest store fuel children with
          | .ok kids => .ok (obj.withChildren kids)
          | .error m => .error m
      match loaded with
      | .error m => .error m
      | .ok obj' =>
        match loadObjects manifest store fuel rest with
        | .ok objs => .ok (obj' :: objs)
        | .error m => .error m
termination_by structural fuel _ => fuel

/-- The merged document fields that validation inspects. -/
structure MergedDoc where
  saveName : Option String
  gameMode : Option String
  objectStates : List SObj

/-- The per-object error pass of `validateModStructure` (`seen` is the
`seenGuids` set; warnings are not errors and are not modelled). -/
def objErrors : Nat → List String → List SObj → List String
  | _, _, [] => []
  | i, seen, o :: rest =>
    let p := "ObjectStates[" ++ toString i ++ "]"
    (if jsTruthy o.guid then [] else [p ++ " is missing GUID."]) ++
    (if jsTruthy o.name then [] else [p ++ " is missing Name."]) ++
    (if o.hasTransform then [] else [p ++ " is missing Transform."]) ++
    (if jsTruthy o.guid ∧ o.guid.getD "" ∈ seen then
      [p ++ " has duplicate GUID: " ++ o.guid.getD ""] else []) ++
    objErrors (i + 1)
      (if jsTruthy o.guid ∧ o.guid.getD "" ∉ seen then o.guid.getD "" :: seen else seen)
      rest

/-- The errors collected by `validateModStructure`; the build aborts
when this list is non-empty.  The duplicate-GUID pass walks only the
top-level `ObjectStates` array. -/
def validateErrors (mod : MergedDoc) : List String :=
  (if mod.objectStates.isEmpty then
    ["Mod must contain non-empty ObjectStates array."] else []) ++
  (if jsTruthy mod.saveName then [] else ["SaveName is missing or invalid."]) ++
  (if jsTruthy mod.gameMode then [] else ["GameMode is missing or invalid."]) ++
  objErrors 0 [] mod.objectStates

/-- The reconstruction pipeline of `main` (the parts the claims are
about): verify every manifest entry (`fileExistsStrict`), group by
parent, stable-sort the root group, assemble the object tree, validate,
and only then produce the output document. -/
def mergeMain (saveName gameMode : Option String) (manifest : List ManifestEntry)
    (store : FileStore) (fuel : Nat) : Except String MergedDoc :=
  match checkManifest store manifest with
  | .error m => .error m
  | .ok _ =>
    match loadObjects manifest store fuel
        (sortByOrderStable (childrenOf manifest "__root__")) with
    | .error m => .error m
    | .ok objectStates =>
      let merged : MergedDoc := ⟨saveName, gameMode, objectStates⟩
      match validateErrors merged with
      | [] => .ok merged
      | e :: _ => .error ("❌ Validation failed: " ++ e)

/-- The files `main` writes into the build directory: exactly one, and
only after every check and validation has passed. -/
def mergeWrites (saveName gameMode : Option String) (manifest : List ManifestEntry)
    (store : FileStore) (fuel : Nat) (outputFile : String) :
    List (String × MergedDoc) :=
  match mergeMain saveName gameMode manifest store fuel with
  | .ok doc => [(outputFile, doc)]
  | .error _ => []

/-- A failing entry anywhere in the manifest makes the whole check
fail. -/
theorem checkManifest_error_of_bad (store : FileStore) :
    ∀ (manifest : List ManifestEntry),
      (∃ e, e ∈ manifest ∧ ∃ m, fileExistsStrict store e = .error m) →
      ∃ m, checkManifest store manifest = .error m := by
  intro manifest
  induction manifest with
  | nil =>
    rintro ⟨e, he, -⟩
    cases he
  | cons a rest ih =>
    rintro ⟨e, he, m, hm⟩
    rw [checkManifest]
    cases ha : fileExistsStrict store a with
    | error m' => exact ⟨m', rfl⟩
    | ok u =>
      rcases List.mem_cons.mp he with rfl | he'
      · rw [ha] at hm; cases hm
      · exact ih ⟨e, he', m, hm⟩

/-- C6: structural failure atomicity — whenever some manifest entry
refers to a missing file, an unparsable file, or a file whose embedded
GUID contradicts the manifest (the failure cases of
`fileExistsStrict`), reconstruction aborts with an error and writes
nothing to the build directory; and in the missing-file case the error
is exactly the template that names the entry's guid and the expected
path. -/
theorem merge_structural_atomicity :
    (∀ (saveName gameMode : Option String) (manifest : List ManifestEntry)
        (store : FileStore) (fuel : Nat) (outputFile : String),
      (∃ e, e ∈ manifest ∧ ∃ m, fileExistsStrict store e = .error m) →
      (∃ m, mergeMain saveName gameMode manifest store fuel = .error m) ∧
        mergeWrites saveName gameMode manifest store fuel outputFile = []) ∧
    (∀ (store : FileStore) (e : ManifestEntry),
      readStore store e.file = none →
      fileExistsStrict store e = .error (missingFileMsg e)) := by
  constructor
  · intro sn gm manifest store fuel out hbad
    obtain ⟨m, hm⟩ := checkManifest_error_of_bad store manifest hbad
    have hmain : mergeMain sn gm manifest store fuel = .error m := by
      rw [mergeMain, hm]
    refine ⟨⟨m, hmain⟩, ?_⟩
    rw [mergeWrites, hmain]
  · intro store e h
    rw [fileExistsStrict, h]

/-- Witness for C6: the spec's missing-file scenario, a manifest whose
single entry names guid `g1` and file `missing.json` with an empty
source tree. -/
theorem merge_structural_atomicity_witness :
    (∃ m, mergeMain (some "Save") (some "Mode")
        [⟨"Object", some "Object", none, some "g1", "missing.json", none, some 0⟩]
        [] 5 = .error m) ∧
      mergeWrites (some "Save") (some "Mode")
        [⟨"Object", some "Object", none, some "g1", "missing.json", none, some 0⟩]
        [] 5 "build/out.json" = [] :=
  merge_structural_atomicity.1 (some "Save") (some "Mode")
    [⟨"Object", some "Object", none, some "g1", "missing.json", none, some 0⟩]
    [] 5 "build/out.json"
    ⟨⟨"Object", some "Object", none, some "g1", "missing.json", none, some 0⟩,
      List.mem_singleton.mpr rfl,
      missingFileMsg ⟨"Object", some "Object", none, some "g1", "missing.json", none, some 0⟩,
      merge_structural_atomicity.2 []
        ⟨"Object", some "Object", none, some "g1", "missing.json", none, some 0⟩ rfl⟩

/-- C10: validation depth limit — a concrete reconstruction whose two
contained objects (inside the same `ContainedObjects` list) share the
GUID `xxx` passes every check `mergeMain` performs, validation
included, because duplicate-GUID detection inspects only the top-level
`ObjectStates` array. -/
theorem validate_misses_nested_duplicates :
    mergeMain (some "Save") (some "Mode")
      [⟨"Deck", some "Deck", some "Box", some "aaa", "A.json", none, some 0⟩,
       ⟨"Card", some "Card", some "c1", some "xxx", "X.json", some "aaa", some 0⟩,
       ⟨"Card", some "Card", some "c2", some "xxx", "Y.json", some "aaa", some 1⟩]
      [("A.json", some (.node (some "aaa") (some "Deck") (some "Box") true [])),
       ("X.json", some (.node (some "xxx") (some "Card") (some "c1") true [])),
       ("Y.json", some (.node (some "xxx") (some "Card") (some "c2") true []))]
      5 =
      .ok ⟨some "Save", some "Mode",
        [.node (some "aaa") (some "Deck") (some "Box") true
          [.node (some "xxx") (some "Card") (some "c1") true [],
           .node (some "xxx") (some "Card") (some "c2") true []]]⟩ ∧
    ¬ (([some "xxx", some "xxx"] : List (Option String)).Nodup) ∧
    (SObj.node (some "aaa") (some "Deck") (some "Box") true
        [.node (some "xxx") (some "Card") (some "c1") true [],
         .node (some "xxx") (some "Card") (some "c2") true []]).children.map SObj.guid =
      [some "xxx", some "xxx"] := by
  refine ⟨by rfl, by decide, by rfl⟩

/-- A save document with an acyclic containment structure (it is a
tree) in which two top-level objects share the GUID `g`: the first
contains one card, the second is empty. -/
def docCE : List SObj :=
  [.node (some "g") (some "Box") none true
    [.node (some "x") (some "Card") none true []],
   .node (some "g") (some "Box2") none true []]

/-- C5 counterexample: splitting `docCE` and reconstructing it via the
merge grouping hands the card to *both* objects with GUID `g` — the
reconstructed second object gains a child it never had, so the
round-trip fails although the containment structure is acyclic. -/
theorem roundtrip_counterexample :
    loadObjects
        (splitList (fun s => s) (fun c => c.isAlphanum) 10 docCE "." none 0).2
        ((splitList (fun s => s) (fun c => c.isAlphanum) 10 docCE "." none 0).1.map
          (fun w => (w.1, some w.2)))
        10
        (sortByOrderStable (childrenOf
          (splitList (fun s => s) (fun c => c.isAlphanum) 10 docCE "." none 0).2
          "__root__")) =
      .ok [.node (some "g") (some "Box") none true
            [.node (some "x") (some "Card") none true []],
           .node (some "g") (some "Box2") none true
            [.node (some "x") (some "Card") none true []]] ∧
    ([SObj.node (some "g") (some "Box") none true
        [.node (some "x") (some "Card") none true []],
      SObj.node (some "g") (some "Box2") none true
        [.node (some "x") (some "Card") none true []]] ≠ docCE) := by
  refine ⟨by rfl, ?_⟩
  intro h
  simp [docCE] at h

/-! ### The amended round trip

Auxiliary facts for proving that split-then-merge reproduces the tree
when every object carries a non-empty GUID, the GUIDs are pairwise
distinct and none is the literal `__root__`, and the generated file
paths are pairwise distinct. -/

theorem SObj.one_le_sizeOf (o : SObj) : 1 ≤ sizeOf o := by
  cases o with
  | node g n k t c => simp; omega

theorem SObj.children_sizeOf_lt (o : SObj) : sizeOf o.children < sizeOf o := by
  cases o with
  | node g n k t c => simp [SObj.children]

/-- The group key contributed by a `parent` field value. -/
def parentKey (pg : Option String) : String :=
  if jsTruthy pg then pg.getD "" else "__root__"

/-- The guid string of an entry (meaningful when the guid is truthy). -/
def guidVal (e : ManifestEntry) : String := e.guid.getD ""

theorem groupKey_entryOf (nfc : String → String) (isLN : Char → Bool)
    (o : SObj) (rel : String) (pg : Option String) (i : Nat) :
    groupKey (entryOf nfc isLN o rel pg i) = parentKey pg := rfl

theorem jsTruthy_exists {x : Option String} (h : jsTruthy x = true) :
    ∃ g, x = some g ∧ g ≠ "" := by
  cases x with
  | none => simp [jsTruthy] at h
  | some s => exact ⟨s, rfl, by simpa [jsTruthy] using h⟩

theorem parentKey_some {g : String} (hg : g ≠ "") : parentKey (some g) = g := by
  simp [parentKey, jsTruthy, hg]

theorem childLookupKey_eq {e : ManifestEntry} (h : jsTruthy e.guid = true) :
    childLookupKey e = guidVal e := by
  obtain ⟨g, hg, -⟩ := jsTruthy_exists h
  simp [childLookupKey, guidVal, hg]

theorem guid_eq_some_guidVal {e : ManifestEntry} (h : jsTruthy e.guid = true) :
    e.guid = some (guidVal e) := by
  obtain ⟨g, hg, -⟩ := jsTruthy_exists h
  simp [guidVal, hg]

theorem childrenOf_nil_of (M : List ManifestEntry) (t : String)
    (h : ∀ e ∈ M, groupKey e ≠ t) : childrenOf M t = [] := by
  rw [childrenOf, List.filter_eq_nil_iff]
  intro e he
  simpa using h e he

theorem childrenOf_cons (e : ManifestEntry) (M : List ManifestEntry) (t : String) :
    childrenOf (e :: M) t =
      (if groupKey e = t then [e] else []) ++ childrenOf M t := by
  rw [childrenOf, List.filter_cons]
  by_cases h : groupKey e = t
  · simp [h, childrenOf]
  · simp [h, childrenOf]

theorem childrenOf_append (A B : List ManifestEntry) (t : String) :
    childrenOf (A ++ B) t = childrenOf A t ++ childrenOf B t :=
  List.filter_append _ _

/-- Unfolding of the manifest rows of a split at a cons cell. -/
theorem splitList_snd_cons (nfc : String → String) (isLN : Char → Bool)
    (fuel : Nat) (o : SObj) (rest : List SObj) (rel : String)
    (pg : Option String) (i : Nat) :
    (splitList nfc isLN (fuel + 1) (o :: rest) rel pg i).2 =
      entryOf nfc isLN o rel pg i ::
        ((splitList nfc isLN fuel o.children (generateContainerRelPath nfc isLN o)
          (jsOrNull o.guid) 0).2 ++
         (splitList nfc isLN fuel rest rel pg (i + 1)).2) := rfl

/-- Unfolding of the file writes of a split at a cons cell. -/
theorem splitList_fst_cons (nfc : String → String) (isLN : Char → Bool)
    (fuel : Nat) (o : SObj) (rest : List SObj) (rel : String)
    (pg : Option String) (i : Nat) :
    (splitList nfc isLN (fuel + 1) (o :: rest) rel pg i).1 =
      (joinPath rel (if rel = "." then generateTopLevelFilename nfc isLN o
        else generateNestedFilename nfc isLN o i), o) ::
        ((splitList nfc isLN fuel o.children (generateContainerRelPath nfc isLN o)
          (jsOrNull o.guid) 0).1 ++
         (splitList nfc isLN fuel rest rel pg (i + 1)).1) := rfl

/-- Every entry a split produces has as its parent key either the key
of the `parentGuid` the split was called with, or the (truthy) guid of
another entry of the same split (namely its parent object's). -/
theorem splitList_groupKey (nfc : String → String) (isLN : Char → Bool) :
    ∀ (fuel : Nat) (F : List SObj) (rel : String) (pg : Option String) (i : Nat),
      (∀ e ∈ (splitList nfc isLN fuel F rel pg i).2, jsTruthy e.guid = true) →
      ∀ e ∈ (splitList nfc isLN fuel F rel pg i).2,
        groupKey e = parentKey pg ∨
          ∃ e', e' ∈ (splitList nfc isLN fuel F rel pg i).2 ∧
            e'.guid = some (groupKey e) := by
  intro fuel
  induction fuel with
  | zero =>
    intro F rel pg i _ e he
    simp [splitList] at he
  | succ fuel ih =>
    intro F rel pg i htr e he
    match F with
    | [] => simp [splitList] at he
    | o :: rest =>
      rw [splitList_snd_cons] at he htr
      have htrC : ∀ e ∈ (splitList nfc isLN fuel o.children
          (generateContainerRelPath nfc isLN o) (jsOrNull o.guid) 0).2,
          jsTruthy e.guid = true := fun e' he' =>
        htr e' (List.mem_cons_of_mem _ (List.mem_append_left _ he'))
      have htrR : ∀ e ∈ (splitList nfc isLN fuel rest rel pg (i + 1)).2,
          jsTruthy e.guid = true := fun e' he' =>
        htr e' (List.mem_cons_of_mem _ (List.mem_append_right _ he'))
      have hoguid : jsTruthy (entryOf nfc isLN o rel pg i).guid = true :=
        htr _ (List.mem_cons_self _ _)
      rw [splitList_snd_cons]
      rcases List.mem_cons.mp he with rfl | he'
      · exact Or.inl (groupKey_entryOf nfc isLN o rel pg i)
      · rcases List.mem_append.mp he' with hC | hR
        · rcases ih o.children (generateContainerRelPath nfc isLN o)
              (jsOrNull o.guid) 0 htrC e hC with h | ⟨e', he'', hg⟩
          · right
            refine ⟨entryOf nfc isLN o rel pg i, List.mem_cons_self _ _, ?_⟩
            rw [h]
            obtain ⟨g, hg, hgne⟩ := jsTruthy_exists hoguid
            have hguid : (entryOf nfc isLN o rel pg i).guid = jsOrNull o.guid := rfl
            rw [hguid] at hg ⊢
            rw [hg, parentKey_some hgne]
          · exact Or.inr ⟨e', List.mem_cons_of_mem _ (List.mem_append_left _ he''), hg⟩
        · rcases ih rest rel pg (i + 1) htrR e hR with h | ⟨e', he'', hg⟩
          · exact Or.inl h
          · exact Or.inr ⟨e', List.mem_cons_of_mem _ (List.mem_append_right _ he''), hg⟩

/-- A split has no rows grouped under a key that is neither its own
parent key nor one of its entry guids. -/
theorem childrenOf_splitList_nil (nfc : String → String) (isLN : Char → Bool)
    (fuel : Nat) (F : List SObj) (rel : String) (pg : Option String) (i : Nat)
    (htr : ∀ e ∈ (splitList nfc isLN fuel F rel pg i).2, jsTruthy e.guid = true)
    (t : String) (hpk : t ≠ parentKey pg)
    (hng : ∀ e ∈ (splitList nfc isLN fuel F rel pg i).2, e.guid ≠ some t) :
    childrenOf (splitList nfc isLN fuel F rel pg i).2 t = [] := by
  apply childrenOf_nil_of
  intro e he h
  rcases splitList_groupKey nfc isLN fuel F rel pg i htr e he with hk | ⟨e', he', hg⟩
  · rw [h] at hk
    exact hpk hk
  · rw [h] at hg
    exact hng e' he' hg

/-- Filtering a split's rows by the split's own parent key yields
exactly the sibling rows, in order. -/
theorem childrenOf_splitList_parentKey (nfc : String → String) (isLN : Char → Bool) :
    ∀ (fuel : Nat) (F : List SObj) (rel : String) (pg : Option String) (i : Nat),
      sizeOf F < fuel →
      (∀ e ∈ (splitList nfc isLN fuel F rel pg i).2, jsTruthy e.guid = true) →
      (∀ e ∈ (splitList nfc isLN fuel F rel pg i).2, e.guid ≠ some (parentKey pg)) →
      childrenOf (splitList nfc isLN fuel F rel pg i).2 (parentKey pg) =
        topEntries nfc isLN F rel pg i := by
  intro fuel
  induction fuel with
  | zero =>
    intro F rel pg i h
    exact absurd h (Nat.not_lt_zero _)
  | succ fuel ih =>
    intro F rel pg i hsz htr hpk
    match F with
    | [] => rfl
    | o :: rest =>
      rw [splitList_snd_cons] at htr hpk ⊢
      have htrC : ∀ e ∈ (splitList nfc isLN fuel o.children
          (generateContainerRelPath nfc isLN o) (jsOrNull o.guid) 0).2,
          jsTruthy e.guid = true := fun e' he' =>
        htr e' (List.mem_cons_of_mem _ (List.mem_append_left _ he'))
      have htrR : ∀ e ∈ (splitList nfc isLN fuel rest rel pg (i + 1)).2,
          jsTruthy e.guid = true := fun e' he' =>
        htr e' (List.mem_cons_of_mem _ (List.mem_append_right _ he'))
      have hpkR : ∀ e ∈ (splitList nfc isLN fuel rest rel pg (i + 1)).2,
          e.guid ≠ some (parentKey pg) := fun e' he' =>
        hpk e' (List.mem_cons_of_mem _ (List.mem_append_right _ he'))
      have hoguid : jsTruthy (entryOf nfc isLN o rel pg i).guid = true :=
        htr _ (List.mem_cons_self _ _)
      obtain ⟨g, hg, hgne⟩ := jsTruthy_exists hoguid
      have hszR : sizeOf rest < fuel := by
        have h1 := SObj.one_le_sizeOf o
        simp only [List.cons.sizeOf_spec] at hsz
        omega
      rw [childrenOf_cons, childrenOf_append]
      rw [if_pos (groupKey_entryOf nfc isLN o rel pg i)]
      have hnilC : childrenOf (splitList nfc isLN fuel o.children
          (generateContainerRelPath nfc isLN o) (jsOrNull o.guid) 0).2
          (parentKey pg) = [] := by
        apply childrenOf_splitList_nil nfc isLN fuel _ _ _ _ htrC
        · intro hEq
          apply hpk (entryOf nfc isLN o rel pg i) (List.mem_cons_self _ _)
          have hguid : (entryOf nfc isLN o rel pg i).guid = jsOrNull o.guid := rfl
          have hjo : jsOrNull o.guid = some g := hguid.symm.trans hg
          have hpkg : parentKey pg = g := by rw [hEq, hjo, parentKey_some hgne]
          rw [hg, hpkg]
        · intro e' he' hEq
          exact hpk e' (List.mem_cons_of_mem _ (List.mem_append_left _ he')) hEq
      rw [hnilC, ih rest rel pg (i + 1) hszR htrR hpkR]
      rfl

/-- Sibling rows carry orders `i, i+1, …`. -/
theorem topEntries_order_ge (nfc : String → String) (isLN : Char → Bool) :
    ∀ (F : List SObj) (rel : String) (pg : Option String) (i : Nat),
      ∀ e ∈ topEntries nfc isLN F rel pg i, ∃ m, i ≤ m ∧ e.order = some (m : Int) := by
  intro F
  induction F with
  | nil => intro rel pg i e he; cases he
  | cons o rest ih =>
    intro rel pg i e he
    rcases List.mem_cons.mp he with rfl | he'
    · exact ⟨i, Nat.le_refl i, rfl⟩
    · obtain ⟨m, hm, horder⟩ := ih rel pg (i + 1) e he'
      exact ⟨m, by omega, horder⟩

/-- Sibling rows are already sorted by `order`. -/
theorem topEntries_sorted (nfc : String → String) (isLN : Char → Bool) :
    ∀ (F : List SObj) (rel : String) (pg : Option String) (i : Nat),
      (topEntries nfc isLN F rel pg i).Pairwise entryLE := by
  intro F
  induction F with
  | nil => intro rel pg i; exact List.Pairwise.nil
  | cons o rest ih =>
    intro rel pg i
    rw [topEntries]
    refine List.Pairwise.cons ?_ (ih rel pg (i + 1))
    intro e he
    obtain ⟨m, hm, horder⟩ := topEntries_order_ge nfc isLN rest rel pg (i + 1) e he
    rw [entryLE, orderLE]
    have hoi : (entryOf nfc isLN o rel pg i).order = some (i : Int) := rfl
    rw [hoi, horder]
    simp only [decide_eq_true_eq]
    exact_mod_cast by omega

/-- The stable sort leaves the sibling rows unchanged. -/
theorem sortByOrderStable_topEntries (nfc : String → String) (isLN : Char → Bool)
    (F : List SObj) (rel : String) (pg : Option String) (i : Nat) :
    sortByOrderStable (topEntries nfc isLN F rel pg i) =
      topEntries nfc isLN F rel pg i :=
  List.Sorted.insertionSort_eq (topEntries_sorted nfc isLN F rel pg i)

theorem SObj.withChildren_children (o : SObj) : o.withChildren o.children = o := by
  cases o
  rfl

/-- With pairwise-distinct write paths, reading any written path from
the store yields exactly the object written there. -/
theorem readStore_of_nodup :
    ∀ (writes : List FileWrite), (writes.map Prod.fst).Nodup →
      ∀ w ∈ writes,
        readStore (writes.map (fun v => (v.1, some v.2))) w.1 = some (some w.2) := by
  intro writes
  induction writes with
  | nil => intro _ w hw; cases hw
  | cons w0 rest ih =>
    intro hnd w hw
    rw [List.map_cons, List.nodup_cons] at hnd
    rw [readStore]
    have hrev : ((w0 :: rest).map (fun v => (v.1, some v.2))).reverse =
        (rest.map (fun v => (v.1, some v.2))).reverse ++ [(w0.1, some w0.2)] := by
      simp
    rw [hrev, List.find?_append]
    rcases List.mem_cons.mp hw with rfl | hw'
    · have hnone : ((rest.map (fun v => (v.1, some v.2))).reverse.find?
          (fun e => e.1 == w.1)) = none := by
        rw [List.find?_eq_none]
        intro x hx
        rw [List.mem_reverse, List.mem_map] at hx
        obtain ⟨v, hv, rfl⟩ := hx
        simp only [beq_eq_false_iff_ne, ne_eq, Bool.not_eq_true]
        intro hc
        exact hnd.1 (hc ▸ List.mem_map_of_mem Prod.fst hv)
      rw [hnone]
      simp [List.find?]
    · have hprev := ih hnd.2 w hw'
      rw [readStore] at hprev
      cases hfind : ((rest.map (fun v => (v.1, some v.2))).reverse.find?
          (fun e => e.1 == w.1)) with
      | none => rw [hfind] at hprev; cases hprev
      | some x =>
        rw [hfind] at hprev
        rw [Option.or_some]
        exact hprev

theorem one_le_sizeOf_listSObj (l : List SObj) : 1 ≤ sizeOf l := by
  cases l with
  | nil => simp
  | cons a l => simp; omega

theorem entryOf_file (nfc : String → String) (isLN : Char → Bool)
    (o : SObj) (rel : String) (pg : Option String) (i : Nat) :
    (entryOf nfc isLN o rel pg i).file =
      joinPath rel (if rel = "." then generateTopLevelFilename nfc isLN o
        else generateNestedFilename nfc isLN o i) := rfl

/-- The reconstructor, applied to the sibling rows of a split whose
entries have truthy pairwise-distinct guids none of which is the parent
key, reading from a store that returns exactly the written objects, and
grouping against a full manifest that agrees with the split about every
guid's group, rebuilds exactly the original sibling forest. -/
theorem loadObjects_of_split (nfc : String → String) (isLN : Char → Bool)
    (FULLMAN : List ManifestEntry) (STORE : FileStore) :
    ∀ (fuel : Nat) (F : List SObj) (rel : String) (pg : Option String) (i : Nat),
      sizeOf F < fuel →
      (∀ w ∈ (splitList nfc isLN fuel F rel pg i).1,
        readStore STORE w.1 = some (some w.2)) →
      (∀ e ∈ (splitList nfc isLN fuel F rel pg i).2, jsTruthy e.guid = true) →
      ((splitList nfc isLN fuel F rel pg i).2.map ManifestEntry.guid).Nodup →
      (∀ e ∈ (splitList nfc isLN fuel F rel pg i).2, e.guid ≠ some (parentKey pg)) →
      (∀ e ∈ (splitList nfc isLN fuel F rel pg i).2,
        childrenOf FULLMAN (guidVal e) =
          childrenOf (splitList nfc isLN fuel F rel pg i).2 (guidVal e)) →
      ∀ mfuel, sizeOf F < mfuel →
        loadObjects FULLMAN STORE mfuel (topEntries nfc isLN F rel pg i) = .ok F := by
  intro fuel
  induction fuel with
  | zero =>
    intro F rel pg i h
    exact absurd h (Nat.not_lt_zero _)
  | succ fuel ih =>
    intro F rel pg i hsz hstore htr hnd hpk hframe mfuel hmf
    match F with
    | [] =>
      match mfuel, hmf with
      | m + 1, _ => rfl
    | o :: rest =>
      rw [splitList_snd_cons] at htr hnd hpk hframe
      rw [splitList_fst_cons] at hstore
      -- size bookkeeping
      have hso : 1 ≤ sizeOf o := SObj.one_le_sizeOf o
      have hsrest1 : 1 ≤ sizeOf rest := one_le_sizeOf_listSObj rest
      have hschild : sizeOf o.children < sizeOf o := SObj.children_sizeOf_lt o
      have hszcons : sizeOf (o :: rest) = 1 + sizeOf o + sizeOf rest := by simp
      have hszC : sizeOf o.children < fuel := by omega
      have hszR : sizeOf rest < fuel := by omega
      -- membership lifters
      have memE : entryOf nfc isLN o rel pg i ∈
          entryOf nfc isLN o rel pg i ::
            ((splitList nfc isLN fuel o.children (generateContainerRelPath nfc isLN o)
              (jsOrNull o.guid) 0).2 ++
             (splitList nfc isLN fuel rest rel pg (i + 1)).2) :=
        List.mem_cons_self _ _
      have memC : ∀ e ∈ (splitList nfc isLN fuel o.children
          (generateContainerRelPath nfc isLN o) (jsOrNull o.guid) 0).2,
          e ∈ entryOf nfc isLN o rel pg i ::
            ((splitList nfc isLN fuel o.children (generateContainerRelPath nfc isLN o)
              (jsOrNull o.guid) 0).2 ++
             (splitList nfc isLN fuel rest rel pg (i + 1)).2) := fun e he =>
        List.mem_cons_of_mem _ (List.mem_append_left _ he)
      have memR : ∀ e ∈ (splitList nfc isLN fuel rest rel pg (i + 1)).2,
          e ∈ entryOf nfc isLN o rel pg i ::
            ((splitList nfc isLN fuel o.children (generateContainerRelPath nfc isLN o)
              (jsOrNull o.guid) 0).2 ++
             (splitList nfc isLN fuel rest rel pg (i + 1)).2) := fun e he =>
        List.mem_cons_of_mem _ (List.mem_append_right _ he)
      -- hypothesis restrictions
      have htrC := fun e he => htr e (memC e he)
      have htrR := fun e he => htr e (memR e he)
      have hpkR := fun e he => hpk e (memR e he)
      have hoguid : jsTruthy (entryOf nfc isLN o rel pg i).guid = true := htr _ memE
      obtain ⟨g, hg, hgne⟩ := jsTruthy_exists hoguid
      -- nodup dissection
      simp only [List.map_cons, List.map_append, List.nodup_cons, List.nodup_append]
        at hnd
      obtain ⟨hhead, hndC, hndR, hdisj⟩ := hnd
      rw [List.mem_append] at hhead
      push_neg at hhead
      have hheadC : ∀ e ∈ (splitList nfc isLN fuel o.children
          (generateContainerRelPath nfc isLN o) (jsOrNull o.guid) 0).2,
          e.guid ≠ (entryOf nfc isLN o rel pg i).guid := by
        intro e he hEq
        exact hhead.1 (hEq ▸ List.mem_map_of_mem ManifestEntry.guid he)
      have hheadR : ∀ e ∈ (splitList nfc isLN fuel rest rel pg (i + 1)).2,
          e.guid ≠ (entryOf nfc isLN o rel pg i).guid := by
        intro e he hEq
        exact hhead.2 (hEq ▸ List.mem_map_of_mem ManifestEntry.guid he)
      have hcross : ∀ e ∈ (splitList nfc isLN fuel o.children
          (generateContainerRelPath nfc isLN o) (jsOrNull o.guid) 0).2,
          ∀ e' ∈ (splitList nfc isLN fuel rest rel pg (i + 1)).2,
          e.guid ≠ e'.guid := by
        intro e he e' he' hEq
        exact hdisj (List.mem_map_of_mem ManifestEntry.guid he)
          (hEq ▸ List.mem_map_of_mem ManifestEntry.guid he')
      -- the parent key of the children split is g
      have hpgC : parentKey (jsOrNull o.guid) = g := by
        have : jsOrNull o.guid = some g := hg
        rw [this, parentKey_some hgne]
      have hgne_pk : g ≠ parentKey pg := by
        intro hEq
        exact hpk _ memE (by rw [hg, hEq])
      have hpkC : ∀ e ∈ (splitList nfc isLN fuel o.children
          (generateContainerRelPath nfc isLN o) (jsOrNull o.guid) 0).2,
          e.guid ≠ some (parentKey (jsOrNull o.guid)) := by
        intro e he
        rw [hpgC, ← hg]
        exact hheadC e he
      -- KEY FACT A: the full manifest's group for g is the children's rows
      have factA : childrenOf FULLMAN g =
          topEntries nfc isLN o.children (generateContainerRelPath nfc isLN o)
            (jsOrNull o.guid) 0 := by
        have hgv : guidVal (entryOf nfc isLN o rel pg i) = g := by
          rw [guidVal, hg]
          rfl
        have h1 := hframe _ memE
        rw [hgv] at h1
        rw [h1, childrenOf_cons, childrenOf_append]
        rw [if_neg (by rw [groupKey_entryOf]; exact fun hEq => hgne_pk hEq.symm)]
        have h2 : childrenOf (splitList nfc isLN fuel o.children
            (generateContainerRelPath nfc isLN o) (jsOrNull o.guid) 0).2 g =
            topEntries nfc isLN o.children (generateContainerRelPath nfc isLN o)
              (jsOrNull o.guid) 0 := by
          have := childrenOf_splitList_parentKey nfc isLN fuel o.children
            (generateContainerRelPath nfc isLN o) (jsOrNull o.guid) 0 hszC htrC hpkC
          rwa [hpgC] at this
        have h3 : childrenOf (splitList nfc isLN fuel rest rel pg (i + 1)).2 g = [] := by
          apply childrenOf_splitList_nil nfc isLN fuel rest rel pg (i + 1) htrR g hgne_pk
          intro e he
          rw [← hg]
          exact hheadR e he
        rw [h2, h3]
        simp
      -- KEY FACT B: frame restricted to the children split
      have hframeC : ∀ e ∈ (splitList nfc isLN fuel o.children
          (generateContainerRelPath nfc isLN o) (jsOrNull o.guid) 0).2,
          childrenOf FULLMAN (guidVal e) =
            childrenOf (splitList nfc isLN fuel o.children
              (generateContainerRelPath nfc isLN o) (jsOrNull o.guid) 0).2
              (guidVal e) := by
        intro e he
        have hte : e.guid = some (guidVal e) := guid_eq_some_guidVal (htrC e he)
        have htpk : guidVal e ≠ parentKey pg := by
          intro hEq
          exact hpk e (memC e he) (by rw [hte, hEq])
        have h1 := hframe e (memC e he)
        rw [h1, childrenOf_cons, childrenOf_append]
        rw [if_neg (by rw [groupKey_entryOf]; exact fun hEq => htpk hEq.symm)]
        have h3 : childrenOf (splitList nfc isLN fuel rest rel pg (i + 1)).2
            (guidVal e) = [] := by
          apply childrenOf_splitList_nil nfc isLN fuel rest rel pg (i + 1) htrR _ htpk
          intro e' he' hEq
          exact hcross e he e' he' (hte.trans hEq.symm)
        rw [h3]
        simp
      -- KEY FACT C: frame restricted to the rest split
      have hframeR : ∀ e ∈ (splitList nfc isLN fuel rest rel pg (i + 1)).2,
          childrenOf FULLMAN (guidVal e) =
            childrenOf (splitList nfc isLN fuel rest rel pg (i + 1)).2 (guidVal e) := by
        intro e he
        have hte : e.guid = some (guidVal e) := guid_eq_some_guidVal (htrR e he)
        have htpk : guidVal e ≠ parentKey pg := by
          intro hEq
          exact hpk e (memR e he) (by rw [hte, hEq])
        have htg : guidVal e ≠ g := by
          intro hEq
          exact hheadR e he (by rw [hte, hEq, hg])
        have h1 := hframe e (memR e he)
        rw [h1, childrenOf_cons, childrenOf_append]
        rw [if_neg (by rw [groupKey_entryOf]; exact fun hEq => htpk hEq.symm)]
        have h2 : childrenOf (splitList nfc isLN fuel o.children
            (generateContainerRelPath nfc isLN o) (jsOrNull o.guid) 0).2
            (guidVal e) = [] := by
          apply childrenOf_splitList_nil nfc isLN fuel o.children
            (generateContainerRelPath nfc isLN o) (jsOrNull o.guid) 0 htrC _
            (by rw [hpgC]; exact htg)
          intro e' he' hEq
          exact hcross e' he' e he (hEq.trans hte.symm)
        rw [h2]
        simp
      -- store restrictions
      have hstoreHead : readStore STORE (entryOf nfc isLN o rel pg i).file =
          some (some o) := by
        rw [entryOf_file]
        exact hstore _ (List.mem_cons_self _ _)
      have hstoreC := fun w hw => hstore w
        (List.mem_cons_of_mem _ (List.mem_append_left _ hw))
      have hstoreR := fun w hw => hstore w
        (List.mem_cons_of_mem _ (List.mem_append_right _ hw))
      -- now unfold the reconstructor
      match mfuel, hmf with
      | m + 1, hmf =>
        have hmC : sizeOf o.children < m := by omega
        have hmR : sizeOf rest < m := by omega
        have hckey : childLookupKey (entryOf nfc isLN o rel pg i) = g := by
          rw [childLookupKey_eq hoguid, guidVal, hg]
          rfl
        have hIHrest := ih rest rel pg (i + 1) hszR hstoreR htrR hndR hpkR hframeR m hmR
        have hIHc := ih o.children (generateContainerRelPath nfc isLN o)
          (jsOrNull o.guid) 0 hszC hstoreC htrC hndC hpkC hframeC m hmC
        rw [topEntries]
        simp only [loadObjects, hstoreHead, hckey, factA, sortByOrderStable_topEntries]
        cases hc : o.children with
        | nil =>
          simp only [topEntries, hIHrest]
        | cons c cs =>
          have hwc : SObj.withChildren o (c :: cs) = o := by
            rw [← hc]
            exact SObj.withChildren_children o
          rw [hc] at hIHc
          simp only [topEntries] at hIHc ⊢
          simp only [hIHc, hIHrest, hwc]

/-- C5 amended: for every save document in which each object carries a
non-empty GUID, the GUIDs are pairwise distinct and none is the literal
`__root__`, and the per-object file paths generated by the splitter are
pairwise distinct, splitting into manifest plus per-object files and
reconstructing via the merge grouping (`childrenOf`,
`sortByOrderStable`, `loadObjects`) reproduces the original entity
forest exactly — the same GUIDs, nesting and child order. -/
theorem split_merge_roundtrip (nfc : String → String) (isLN : Char → Bool)
    (doc : List SObj) (fuel mfuel : Nat)
    (hfuel : sizeOf doc < fuel) (hmfuel : sizeOf doc < mfuel)
    (htr : ∀ e ∈ (splitList nfc isLN fuel doc "." none 0).2, jsTruthy e.guid = true)
    (hnd : ((splitList nfc isLN fuel doc "." none 0).2.map ManifestEntry.guid).Nodup)
    (hroot : ∀ e ∈ (splitList nfc isLN fuel doc "." none 0).2,
      e.guid ≠ some "__root__")
    (hpaths : ((splitList nfc isLN fuel doc "." none 0).1.map Prod.fst).Nodup) :
    childrenOf (splitList nfc isLN fuel doc "." none 0).2 "__root__" =
      topEntries nfc isLN doc "." none 0 ∧
    loadObjects (splitList nfc isLN fuel doc "." none 0).2
      ((splitList nfc isLN fuel doc "." none 0).1.map (fun v => (v.1, some v.2)))
      mfuel
      (sortByOrderStable (childrenOf (splitList nfc isLN fuel doc "." none 0).2
        "__root__")) = .ok doc := by
  have hpkNone : parentKey none = "__root__" := rfl
  have hpk : ∀ e ∈ (splitList nfc isLN fuel doc "." none 0).2,
      e.guid ≠ some (parentKey none) := by
    intro e he
    rw [hpkNone]
    exact hroot e he
  have h1 : childrenOf (splitList nfc isLN fuel doc "." none 0).2 "__root__" =
      topEntries nfc isLN doc "." none 0 := by
    have h := childrenOf_splitList_parentKey nfc isLN fuel doc "." none 0 hfuel htr hpk
    rwa [hpkNone] at h
  refine ⟨h1, ?_⟩
  rw [h1, sortByOrderStable_topEntries]
  exact loadObjects_of_split nfc isLN _ _ fuel doc "." none 0 hfuel
    (fun w hw => readStore_of_nodup _ hpaths w hw) htr hnd hpk
    (fun e _ => rfl) mfuel hmfuel

/-- A well-formed two-level document for the round-trip witness. -/
def docW : List SObj :=
  [.node (some "a1") (some "Box") none true
    [.node (some "b2") (some "Card") none true []],
   .node (some "c3") (some "Token") none true []]

/-- Witness for the amended C5 at the concrete document `docW`. -/
theorem split_merge_roundtrip_witness :
    childrenOf (splitList (fun s => s) (fun c => c.isAlphanum) 100000 docW "." none 0).2
        "__root__" =
      topEntries (fun s => s) (fun c => c.isAlphanum) docW "." none 0 ∧
    loadObjects (splitList (fun s => s) (fun c => c.isAlphanum) 100000 docW "." none 0).2
      ((splitList (fun s => s) (fun c => c.isAlphanum) 100000 docW "." none 0).1.map
        (fun v => (v.1, some v.2)))
      100000
      (sortByOrderStable
        (childrenOf (splitList (fun s => s) (fun c => c.isAlphanum) 100000 docW "." none 0).2
          "__root__")) = .ok docW :=
  split_merge_roundtrip (fun s => s) (fun c => c.isAlphanum) docW 100000 100000
    (by decide) (by decide) (by decide) (by decide) (by decide) (by decide)

end TTS
